import Mathlib

/-!
# Axes manager of the stepper firmware: embedding and properties

Shallow embedding of `Grbl_Esp32/src/Machine/Axes.cpp` and
`Grbl_Esp32/src/Pins/ErrorPinDetail.cpp`.

* Pointers that may be null are `Option` values; following a null pointer, or
  indexing the axis table outside its `MAX_N_AXIS` slots, ends the call with a
  `Fault`.
* Calls into collaborators that are outside the embedded files (motor
  drivers, the stepping backend, the logger, the shared disable pin) are
  recorded, in program order, as `Event`s of a trace.
* Machine integers are natural numbers; the `uint8_t` arguments of `step` are
  reduced modulo `2 ^ 8` on entry and `MotorMask` values modulo `2 ^ 32`.
-/

namespace Machine

/-! ## Constants and bit helpers declared outside the embedded files -/

/-- Modelled from the spec: the constant `MAX_N_AXIS` is declared in a header
that is not among the embedded files; the spec bounds the number of logical
axes by a fixed maximum and names 6. -/
def MAX_N_AXIS : Nat := 6

/-- Modelled from the spec: `Axis::MAX_NUMBER_GANGED` is declared in `Axis.h`,
not among the embedded files; the spec allows at most 2 gangs per axis and
`Axes::step` addresses exactly `_gangs[0]` and `_gangs[1]`. -/
def Axis.MAX_NUMBER_GANGED : Nat := 2

/-- Modelled from the spec: width in bits of a `MotorMask`, which the spec
describes as one integer with room for 16 axes times 2 gangs. -/
def MOTOR_MASK_BITS : Nat := 32

/-- Modelled from the spec: macro `bitnum_to_mask(n)` of `NutsBolts.h`, the
mask whose only set bit is bit `n`. -/
def bitnum_to_mask (n : Nat) : Nat := 1 <<< n

/-- Modelled from the spec: macro `bitnum_is_true(target, n)` of `NutsBolts.h`,
true when bit `n` of `target` is set. -/
def bitnum_is_true (target n : Nat) : Bool := (target &&& bitnum_to_mask n) != 0

/-- Modelled from the spec: macro `bitnum_is_false(target, n)` of
`NutsBolts.h`, true when bit `n` of `target` is clear. -/
def bitnum_is_false (target n : Nat) : Bool := (target &&& bitnum_to_mask n) == 0

/-- Modelled from the spec: macro `set_bitnum(target, n)` of `NutsBolts.h`
applied to a `MotorMask`: sets bit `n`. -/
def set_bitnum (target n : Nat) : Nat := (target ||| bitnum_to_mask n) % 2 ^ MOTOR_MASK_BITS

/-- Modelled from the spec: macro `set_bits(target, mask)` of `NutsBolts.h`
applied to a `MotorMask`: sets every bit of `mask`. -/
def set_bits (target mask : Nat) : Nat := (target ||| mask) % 2 ^ MOTOR_MASK_BITS

/-- Modelled from the spec: macro `clear_bits(target, mask)` of `NutsBolts.h`
applied to a `MotorMask`: `target &= ~mask`, the complement taken on
`MOTOR_MASK_BITS` bits. -/
def clear_bits (target mask : Nat) : Nat :=
  target &&& ((mask % 2 ^ MOTOR_MASK_BITS) ^^^ (2 ^ MOTOR_MASK_BITS - 1))

/-! ## Faults, events and outcomes -/

/-- Ways in which a call ends without returning. -/
inductive Fault where
  /-- A null pointer was followed. -/
  | nullDereference
  /-- The axis table or a gang array was indexed outside its slots. -/
  | indexOutOfRange
  /-- `Assert(false, msg)` was reached. -/
  | assertion (msg : String)
  /-- Control reached the end of a value-returning function. -/
  | missingReturn
  deriving DecidableEq, Repr

/-- Modelled from the spec: macro `Assert(condition, msg)` of `Assert.h`, which
is not among the embedded files; a failed assertion is fatal, the call does
not return. -/
def Assert (condition : Bool) (msg : String) : Except Fault Unit :=
  if condition then .ok () else .error (.assertion msg)

/-- Virtual calls made on a motor driver. -/
inductive MotorCall where
  | set_disable (disable : Bool)
  | read_settings
  | set_homing_mode (isHoming : Bool)
  | set_direction (dir : Bool)
  | step
  | unstep
  deriving DecidableEq, Repr

/-- Messages handed to `log_info`. -/
inductive LogMessage where
  /-- The text "Axis count " followed by the count. -/
  | axisCount (n : Nat)
  /-- The text "No specification for axis " followed by the axis. -/
  | noAxisSpecification (axis : Nat)
  /-- The text "No specification for axis ", the axis, " gang " and the gang. -/
  | noGangSpecification (axis gang : Nat)
  /-- The text "No motor for axis ", the axis, " gang " and the gang. -/
  | noMotor (axis gang : Nat)
  deriving DecidableEq, Repr

/-- Observable calls into collaborators, in the order in which they are made.
A motor call is tagged with the slot `(axis, gang)` through which the motor
was reached. -/
inductive Event where
  | motor (axis gang : Nat) (call : MotorCall)
  | axis_init (axis : Nat)
  | waitDirection
  | startPulseTimer
  | waitPulse
  | finishPulse
  | log_info (msg : LogMessage)
  /-- The call `_sharedStepperDisable.setAttr(Pin::Attr::Output)`. -/
  | pin_setAttr_Output
  /-- The call `_sharedStepperDisable.report(...)`. -/
  | pin_report
  /-- The call `_sharedStepperDisable.write(value)`. -/
  | pin_write (value : Bool)
  deriving DecidableEq, Repr

/-- Result of running a piece of code: the calls it made, and either the value
it returned or the fault that ended it. -/
structure Outcome (α : Type) where
  trace : List Event
  result : Except Fault α

namespace Outcome

/-- Return a value without making a call. -/
def ret {α : Type} (a : α) : Outcome α := ⟨[], .ok a⟩

/-- Make one observable call. -/
def emit (e : Event) : Outcome Unit := ⟨[e], .ok ()⟩

/-- A pure computation that may fault. -/
def lift {α : Type} (x : Except Fault α) : Outcome α := ⟨[], x⟩

/-- Sequencing: the continuation runs only when the first part returned. -/
def bind {α β : Type} (o : Outcome α) (k : α → Outcome β) : Outcome β :=
  match o.result with
  | .error f => ⟨o.trace, .error f⟩
  | .ok a => ⟨o.trace ++ (k a).trace, (k a).result⟩

/-- The call returned (with any value). -/
def returned {α : Type} (o : Outcome α) : Prop := ∃ a, o.result = .ok a

end Outcome

instance : Monad Outcome where
  pure := Outcome.ret
  bind := Outcome.bind

/-- Following a pointer: a null pointer is a fault. -/
def deref {α : Type} (p : Option α) : Except Fault α :=
  match p with
  | none => .error .nullDereference
  | some a => .ok a

/-- A counted `for` loop without `break`: the body is run on each index in
turn, threading the variables `acc` it updates, until one iteration faults. -/
def forLoop {σ : Type} : List Nat → σ → (Nat → σ → Outcome σ) → Outcome σ
  | [], acc, _ => Outcome.ret acc
  | i :: rest, acc, body => (body i acc).bind (fun acc1 => forLoop rest acc1 body)

/-- A counted `for` loop whose body may `break`: the body answers `true` to
leave the loop. -/
def forLoopBreak : List Nat → (Nat → Outcome Bool) → Outcome Unit
  | [], _ => Outcome.ret ()
  | i :: rest, body =>
      (body i).bind (fun leave => if leave then Outcome.ret () else forLoopBreak rest body)

/-! ## Data model -/

/-- One motor driver. Its identity is `id`; `set_homing_mode` is the answer
of the driver's own (backend-specific) `set_homing_mode(isHoming)`. -/
structure Motor where
  id : Nat
  set_homing_mode : Bool → Bool

/-- One gang slot of an axis: `_motor` may be null. -/
structure Gang where
  _motor : Option Motor

/-- One logical axis: its index and its gang array, entries of which may be
null. -/
structure Axis where
  _axis : Nat
  _gangs : Fin Axis.MAX_NUMBER_GANGED → Option Gang

/-- The shared stepper-disable pin, as far as the manager looks at it. -/
structure Pin where
  defined : Bool

/-- The axes manager. `previous_dir` is the function-local `static` of
`Axes::step`, which lives as long as the program. -/
structure Axes where
  _numberAxis : Nat
  _sharedStepperDisable : Pin
  _axis : Fin MAX_N_AXIS → Option Axis
  _motorLockoutMask : Nat
  previous_dir : Nat

/-- The read `a->_gangs[gang]`. -/
def Axis.gangAt (a : Axis) (gang : Nat) : Except Fault (Option Gang) :=
  if h : gang < Axis.MAX_NUMBER_GANGED then .ok (a._gangs ⟨gang, h⟩) else .error .indexOutOfRange

/-- The motor held in gang slot `gang` of an axis, when the gang is present
and has a motor. -/
def Axis.motorIn (a : Axis) (gang : Nat) : Option Motor :=
  match a.gangAt gang with
  | .ok (some g) => g._motor
  | _ => none

namespace Axes

/-- The read `_axis[axis]`. -/
def axisAt (s : Axes) (axis : Nat) : Except Fault (Option Axis) :=
  if h : axis < MAX_N_AXIS then .ok (s._axis ⟨axis, h⟩) else .error .indexOutOfRange

/-- The expression `a->_gangs[gang]->_motor` for a possibly null `a`. -/
def motorOf (a : Option Axis) (gang : Nat) : Except Fault (Option Motor) := do
  let a1 ← deref a
  let g ← deref (← a1.gangAt gang)
  pure g._motor

/-- The expression `_axis[axis]->_gangs[gang]->_motor`. -/
def motorAt (s : Axes) (axis gang : Nat) : Except Fault (Option Motor) := do
  motorOf (← s.axisAt axis) gang

/-- Initial value of the direction cache: `static uint8_t previous_dir = 255`. -/
def INITIAL_PREVIOUS_DIR : Nat := 255

/-- `Axes::unlock_all_motors`. -/
def unlock_all_motors (s : Axes) : Axes := { s with _motorLockoutMask := 0 }

/-- `Axes::lock_motors`; the argument is a `MotorMask`. -/
def lock_motors (s : Axes) (mask : Nat) : Axes :=
  { s with _motorLockoutMask := set_bits s._motorLockoutMask (mask % 2 ^ MOTOR_MASK_BITS) }

/-- `Axes::unlock_motors`; the argument is a `MotorMask`. -/
def unlock_motors (s : Axes) (mask : Nat) : Axes :=
  { s with _motorLockoutMask := clear_bits s._motorLockoutMask (mask % 2 ^ MOTOR_MASK_BITS) }

/-- Body of the gang loop of `Axes::read_settings`; answers `true` on `break`. -/
def read_settings_gang (s : Axes) (axis gang_index : Nat) : Outcome Bool := do
  let a ← Outcome.lift (s.axisAt axis)
  match a with
  | none =>
      Outcome.emit (.log_info (.noAxisSpecification axis))
      pure true
  | some a1 =>
      let g ← Outcome.lift (a1.gangAt gang_index)
      match g with
      | none =>
          Outcome.emit (.log_info (.noGangSpecification axis gang_index))
          pure true
      | some g1 =>
          let m := g1._motor
          if m.isNone then
            Outcome.emit (.log_info (.noMotor axis gang_index))
          let _ ← Outcome.lift (deref m)
          Outcome.emit (.motor axis gang_index .read_settings)
          pure false

/-- `Axes::read_settings`. -/
def read_settings (s : Axes) : Outcome Unit :=
  forLoop (List.range s._numberAxis) () fun axis _ =>
    forLoopBreak (List.range Axis.MAX_NUMBER_GANGED) fun gang_index =>
      read_settings_gang s axis gang_index

/-- Body of the gang loop of `Axes::set_homing_mode`. -/
def set_homing_mode_gang (a : Axis) (axis : Nat) (isHoming : Bool) (gang motorsCanHome : Nat) :
    Outcome Nat := do
  let g ← Outcome.lift (a.gangAt gang)
  let g1 ← Outcome.lift (deref g)
  let m ← Outcome.lift (deref g1._motor)
  Outcome.emit (.motor axis gang (.set_homing_mode isHoming))
  if m.set_homing_mode isHoming then
    pure (set_bitnum motorsCanHome (gang * 16 + axis))
  else
    pure motorsCanHome

/-- Body of the axis loop of `Axes::set_homing_mode`. -/
def set_homing_mode_axis (s : Axes) (axisMask : Nat) (isHoming : Bool)
    (axis motorsCanHome : Nat) : Outcome Nat :=
  if bitnum_is_true axisMask axis then do
    let a ← Outcome.lift (s.axisAt axis)
    match a with
    | some a1 =>
        forLoop (List.range Axis.MAX_NUMBER_GANGED) motorsCanHome
          (set_homing_mode_gang a1 axis isHoming)
    | none => pure motorsCanHome
  else
    pure motorsCanHome

/-- `Axes::set_homing_mode`: the manager after the call, and the calls made
together with the returned `MotorMask`. -/
def set_homing_mode (s : Axes) (axisMask : Nat) (isHoming : Bool) : Axes × Outcome Nat :=
  let s1 := s.unlock_all_motors
  (s1, forLoop (List.range s1._numberAxis) 0 (set_homing_mode_axis s1 axisMask isHoming))

/-- The statement `a->_gangs[gang]->_motor->step()` of `Axes::step`. -/
def step_motor (a : Option Axis) (axis gang : Nat) : Outcome Unit := do
  let m ← Outcome.lift (motorOf a gang)
  let _ ← Outcome.lift (deref m)
  Outcome.emit (.motor axis gang .step)

/-- The direction part of `Axes::step`, run when the direction changed. -/
def step_set_directions (s : Axes) (dir_mask : Nat) : Outcome Unit := do
  forLoop (List.range s._numberAxis) () fun axis _ =>
    let thisDir := bitnum_is_true dir_mask axis
    forLoop (List.range Axis.MAX_NUMBER_GANGED) () fun gang_index _ => do
      let a ← Outcome.lift (s.motorAt axis gang_index)
      if a.isSome then
        Outcome.emit (.motor axis gang_index (.set_direction thisDir))
  Outcome.emit .waitDirection

/-- The loop of `Axes::step` that turns on the step pulses. -/
def step_pulses (s : Axes) (step_mask : Nat) : Outcome Unit :=
  forLoop (List.range s._numberAxis) () fun axis _ =>
    if bitnum_is_true step_mask axis then do
      let a ← Outcome.lift (s.axisAt axis)
      if bitnum_is_false s._motorLockoutMask axis then
        step_motor a axis 0
      if bitnum_is_false s._motorLockoutMask (axis + 16) then
        step_motor a axis 1
    else
      pure ()

/-- `Axes::step`: the manager after the call (only the direction cache can
change) and the calls made. Both arguments are `uint8_t`. -/
def step (s : Axes) (step_mask dir_mask : Nat) : Axes × Outcome Unit :=
  let step_mask := step_mask % 256
  let dir_mask := dir_mask % 256
  if dir_mask != s.previous_dir then
    ({ s with previous_dir := dir_mask }, do
      step_set_directions s dir_mask
      Outcome.emit .startPulseTimer
      step_pulses s step_mask)
  else
    (s, do
      Outcome.emit .startPulseTimer
      step_pulses s step_mask)

/-- `Axes::unstep`. -/
def unstep (s : Axes) : Outcome Unit := do
  Outcome.emit .waitPulse
  forLoop (List.range s._numberAxis) () fun axis _ =>
    forLoop (List.range Axis.MAX_NUMBER_GANGED) () fun gang_index _ => do
      let a ← Outcome.lift (s.motorAt axis gang_index)
      let _ ← Outcome.lift (deref a)
      Outcome.emit (.motor axis gang_index .unstep)
      Outcome.emit (.motor axis gang_index .unstep)
  Outcome.emit .finishPulse

end Axes

/-! ## Remaining operations of `Axes.cpp` -/

/-- Modelled from the spec: `Axis::hasMotor` of `Axis.cpp`, which is not among
the embedded files: the axis owns the motor when one of its gang slots holds
a motor of that identity. -/
def Axis.hasMotor (a : Axis) (motor : Nat) : Bool :=
  (List.range Axis.MAX_NUMBER_GANGED).any fun gang =>
    match a.motorIn gang with
    | some m => m.id == motor
    | none => false

/-- Modelled from the spec: the constructor `Axis(i)` of `Axis.h`, which is
not among the embedded files: an inert axis of index `i` without motors. -/
def Axis.new (i : Nat) : Axis := ⟨i, fun _ => none⟩

/-- The constant `SIZE_MAX` on the 32-bit target. -/
def SIZE_MAX : Nat := 2 ^ 32 - 1

/-- A search loop with early `return`: the first index on which the body
answers a value ends the search with that value. -/
def firstFound : List Nat → (Nat → Except Fault (Option Nat)) → Except Fault (Option Nat)
  | [], _ => .ok none
  | i :: rest, body => do
      match ← body i with
      | some r => pure (some r)
      | none => firstFound rest body

namespace Axes

/-- `Axes::Axes()`: every slot of the table is null. The initial values of
the other members are set in `Axes.h`, which is not among the embedded files;
they are arguments here. -/
def new (numberAxis : Nat) (sharedStepperDisable : Pin) (motorLockoutMask : Nat) : Axes :=
  { _numberAxis := numberAxis
    _sharedStepperDisable := sharedStepperDisable
    _axis := fun _ => none
    _motorLockoutMask := motorLockoutMask
    previous_dir := INITIAL_PREVIOUS_DIR }

/-- `Axes::init`: the manager after the call and the calls made. -/
def init (s : Axes) : Axes × Outcome Unit :=
  let s1 := s.unlock_all_motors
  (s1, do
    Outcome.emit (.log_info (.axisCount s._numberAxis))
    if s._sharedStepperDisable.defined then
      Outcome.emit .pin_setAttr_Output
      Outcome.emit .pin_report
    forLoop (List.range s1._numberAxis) () fun axis _ => do
      let a ← Outcome.lift (s1.axisAt axis)
      if a.isSome then
        Outcome.emit (.axis_init axis))

/-- `Axes::set_disable(int axis, bool disable)`. -/
def set_disable_axis (s : Axes) (axis : Nat) (disable : Bool) : Outcome Unit := do
  forLoop (List.range Axis.MAX_NUMBER_GANGED) () fun gang_index _ => do
    let a ← Outcome.lift (s.motorAt axis gang_index)
    let _ ← Outcome.lift (deref a)
    Outcome.emit (.motor axis gang_index (.set_disable disable))
  Outcome.emit (.pin_write disable)

/-- `Axes::set_disable(bool disable)`. -/
def set_disable (s : Axes) (disable : Bool) : Outcome Unit := do
  forLoop (List.range s._numberAxis) () fun axis _ =>
    set_disable_axis s axis disable
  Outcome.emit (.pin_write disable)

/-- `Axes::findAxisIndex`; the motor is given by its identity. -/
def findAxisIndex (s : Axes) (motor : Nat) : Except Fault Nat := do
  let found ← firstFound (List.range s._numberAxis) fun i =>
    firstFound (List.range Axis.MAX_NUMBER_GANGED) fun _j => do
      match ← s.axisAt i with
      | some a => if a.hasMotor motor then pure (some i) else pure none
      | none => pure none
  match found with
  | some i => pure i
  | none =>
      Assert false "Cannot find axis for motor. Something wonky is going on here..."
      pure SIZE_MAX

/-- `Axes::findAxisGanged`; the motor is given by its identity. -/
def findAxisGanged (s : Axes) (motor : Nat) : Except Fault Nat := do
  let found ← firstFound (List.range s._numberAxis) fun i => do
    match ← s.axisAt i with
    | some a =>
        if a.hasMotor motor then
          firstFound (List.range Axis.MAX_NUMBER_GANGED) fun j => do
            let g ← deref (← a.gangAt j)
            match g._motor with
            | some m => if m.id == motor then pure (some j) else pure none
            | none => pure none
        else pure none
    | none => pure none
  match found with
  | some j => pure j
  | none =>
      Assert false "Cannot find axis for motor. Something wonky is going on here..."
      pure SIZE_MAX

/-- `Axes::afterParse`: every null slot receives a default axis of its index. -/
def afterParse (s : Axes) : Axes :=
  { s with _axis := fun i =>
      match s._axis i with
      | none => some (Axis.new i.val)
      | some a => some a }

end Axes

end Machine

/-! ## Error pin backend (`Pins/ErrorPinDetail.cpp`) -/

namespace Pins

open Machine (Fault Assert)

/-- Modelled from the spec: the named capability constants of
`PinCapabilities.h`, which is not among the embedded files; `Error` marks the
error backend. -/
inductive PinCapabilities where
  | None
  | Input
  | Output
  | PWM
  | Error
  deriving DecidableEq, Repr

/-- Modelled from the spec: an attribute set of `PinAttributes.h`, which is
not among the embedded files, as a set of attribute bits. -/
structure PinAttributes where
  bits : Nat
  deriving DecidableEq, Repr

/-- Modelled from the spec: `PinAttributes::None`, the empty attribute set. -/
def PinAttributes.None : PinAttributes := ⟨0⟩

/-- An error pin: a `PinDetail` whose only data is the index handed to the
base-class constructor. -/
structure ErrorPinDetail where
  _index : Nat
  deriving DecidableEq, Repr

namespace ErrorPinDetail

/-- The constructor `ErrorPinDetail(options)`, which is `PinDetail(0)`. -/
def new : ErrorPinDetail := ⟨0⟩

/-- `ErrorPinDetail::capabilities`. -/
def capabilities (_p : ErrorPinDetail) : PinCapabilities := PinCapabilities.Error

/-- `ErrorPinDetail::write`. -/
def write (_p : ErrorPinDetail) (_high : Int) : Except Fault Unit :=
  Assert false "Cannot write to an error pin."

/-- `ErrorPinDetail::read`: the body has no `return` after the assertion. -/
def read (_p : ErrorPinDetail) : Except Fault Int := do
  Assert false "Cannot read from an error pin."
  throw Fault.missingReturn

/-- `ErrorPinDetail::setAttr`: the body is empty; the pin is returned as it
was. -/
def setAttr (p : ErrorPinDetail) (_value : PinAttributes) : Except Fault ErrorPinDetail :=
  .ok p

/-- `ErrorPinDetail::getAttr`. -/
def getAttr (_p : ErrorPinDetail) : PinAttributes := PinAttributes.None

/-- `ErrorPinDetail::toString`. -/
def toString (_p : ErrorPinDetail) : String := "ERROR_PIN"

end ErrorPinDetail

end Pins

namespace Machine

/-! ## Predicates on the axis table -/

/-- Both gang slots of the axis hold a motor. -/
def Axis.hasBothMotors (a : Axis) : Bool :=
  (a.motorIn 0).isSome && (a.motorIn 1).isSome

namespace Axes

/-- Slot `axis` of the table is present (a non-null `_axis[axis]`). -/
def axisPresent (s : Axes) (axis : Nat) : Bool :=
  match s.axisAt axis with
  | .ok (some _) => true
  | _ => false

/-- Slot `axis` of the table is a null pointer. -/
def axisAbsent (s : Axes) (axis : Nat) : Bool :=
  match s.axisAt axis with
  | .ok none => true
  | _ => false

/-- Slot `axis` is present and both of its gang slots hold a motor. -/
def axisFull (s : Axes) (axis : Nat) : Bool :=
  match s.axisAt axis with
  | .ok (some a) => a.hasBothMotors
  | _ => false

/-- The motor in slot `(axis, gang)` exists and answers `true` to its own
`set_homing_mode(isHoming)`. -/
def motorCanHome (s : Axes) (axis gang : Nat) (isHoming : Bool) : Bool :=
  match s.axisAt axis with
  | .ok (some a) =>
      match a.motorIn gang with
      | some m => m.set_homing_mode isHoming
      | none => false
  | _ => false

/-- Fully populated table: every axis below `_numberAxis` is present and has a
motor in both gang slots. -/
def FullyPopulated (s : Axes) : Prop :=
  ∀ axis, axis < s._numberAxis → s.axisFull axis = true

/-- Every axis below `_numberAxis` is either absent or has a motor in both
gang slots. -/
def AbsentOrFull (s : Axes) : Prop :=
  ∀ axis, axis < s._numberAxis → s.axisAbsent axis = true ∨ s.axisFull axis = true

instance (s : Axes) : Decidable s.FullyPopulated := by
  unfold FullyPopulated; infer_instance

instance (s : Axes) : Decidable s.AbsentOrFull := by
  unfold AbsentOrFull; infer_instance

/-! ## Traces and values used to state the properties -/

/-- Calls made by one iteration of the axis loop of `unstep` on a full axis. -/
def unstepCalls (axis : Nat) : List Event :=
  [.motor axis 0 .unstep, .motor axis 0 .unstep, .motor axis 1 .unstep, .motor axis 1 .unstep]

/-- Calls made by one iteration of the axis loop of `set_homing_mode`, when
the axis is absent or full. -/
def homingCalls (s : Axes) (axisMask : Nat) (isHoming : Bool) (axis : Nat) : List Event :=
  if axisMask.testBit axis && s.axisPresent axis then
    [.motor axis 0 (.set_homing_mode isHoming), .motor axis 1 (.set_homing_mode isHoming)]
  else []

/-- Value of `motorsCanHome` after one iteration of the axis loop of
`set_homing_mode`, when the axis is absent or full. -/
def homingStep (s : Axes) (axisMask : Nat) (isHoming : Bool) (axis acc : Nat) : Nat :=
  if axisMask.testBit axis && s.axisPresent axis then
    let acc1 := if s.motorCanHome axis 0 isHoming then set_bitnum acc (0 * 16 + axis) else acc
    if s.motorCanHome axis 1 isHoming then set_bitnum acc1 (1 * 16 + axis) else acc1
  else acc

/-- Bit `b` is contributed by `axis`: the axis is selected and the motor of
gang 0 (for `b = axis`) or gang 1 (for `b = 16 + axis`) can home. -/
def homingContrib (s : Axes) (axisMask : Nat) (isHoming : Bool) (axis b : Nat) : Prop :=
  axisMask.testBit axis = true ∧
    ((b = axis ∧ s.motorCanHome axis 0 isHoming = true) ∨
     (b = 16 + axis ∧ s.motorCanHome axis 1 isHoming = true))

/-! ## Example machine of the spec

Axis X with one homing-capable motor (bit 0; its second gang holds a driver
that cannot home), axis Y with two ganged motors (bits 1 and 17) of which
gang 0 can home and gang 1 cannot. -/

/-- A motor driver that answers `true` to `set_homing_mode`. -/
def homingMotor (id : Nat) : Motor := ⟨id, fun _ => true⟩

/-- A motor driver that answers `false` to `set_homing_mode`. -/
def plainMotor (id : Nat) : Motor := ⟨id, fun _ => false⟩

/-- Axis X of the example. -/
def exampleX : Axis := ⟨0, ![some ⟨some (homingMotor 1)⟩, some ⟨some (plainMotor 2)⟩]⟩

/-- Axis Y of the example. -/
def exampleY : Axis := ⟨1, ![some ⟨some (homingMotor 3)⟩, some ⟨some (plainMotor 4)⟩]⟩

/-- The example machine, freshly started: two axes, no lockout, direction
cache at its initial value. -/
def exampleAxes : Axes :=
  { _numberAxis := 2
    _sharedStepperDisable := ⟨true⟩
    _axis := ![some exampleX, some exampleY, none, none, none, none]
    _motorLockoutMask := 0
    previous_dir := INITIAL_PREVIOUS_DIR }

end Axes

/-- The event is a direction-pin write (a `set_direction` call on a motor). -/
def Event.isSetDirection : Event → Bool
  | .motor _ _ (.set_direction _) => true
  | _ => false

/-- The event is a message handed to `log_info`. -/
def Event.isLog : Event → Bool
  | .log_info _ => true
  | _ => false

namespace Axes

/-- Direction calls of `step` for one full axis: both gangs receive bit `axis`
of `dir_mask`. -/
def directionCalls (dir_mask axis : Nat) : List Event :=
  [.motor axis 0 (.set_direction (dir_mask.testBit axis)),
   .motor axis 1 (.set_direction (dir_mask.testBit axis))]

/-- Step edges of `step` for one full axis: none when the axis is not flagged;
otherwise gang 0 unless bit `axis` of the lockout mask is set, then gang 1
unless bit `axis + 16` is set. -/
def pulseCalls (s : Axes) (step_mask axis : Nat) : List Event :=
  if step_mask.testBit axis then
    (if s._motorLockoutMask.testBit axis then [] else [.motor axis 0 .step]) ++
    (if s._motorLockoutMask.testBit (axis + 16) then [] else [.motor axis 1 .step])
  else []

/-- The calls made by `step` on a fully populated table. -/
def stepTrace (s : Axes) (step_mask dir_mask : Nat) : List Event :=
  (if dir_mask % 256 = s.previous_dir then []
   else (List.range s._numberAxis).flatMap (directionCalls (dir_mask % 256)) ++ [.waitDirection])
  ++ [.startPulseTimer]
  ++ (List.range s._numberAxis).flatMap (pulseCalls s (step_mask % 256))

/-- A step edge that may be issued under lockout mask `L` by the pulse loop
over `n` axes. -/
def allowedEdge (L n : Nat) (e : Event) : Prop :=
  ∀ axis gang, e = Event.motor axis gang .step →
    axis < n ∧ gang < Axis.MAX_NUMBER_GANGED ∧ L.testBit (gang * 16 + axis) = false

/-- Calls made by one iteration of the axis loop of `read_settings` when the
axis is absent or full: one log message for an absent axis, otherwise one
`read_settings` call on each gang's motor. -/
def readCalls (s : Axes) (axis : Nat) : List Event :=
  if s.axisAbsent axis then [.log_info (.noAxisSpecification axis)]
  else [.motor axis 0 .read_settings, .motor axis 1 .read_settings]

/-- A machine whose axis X has a gang 0 without a motor (`_motor` null). -/
def nullMotorAxes : Axes :=
  { _numberAxis := 1
    _sharedStepperDisable := ⟨true⟩
    _axis := ![some ⟨0, ![some ⟨none⟩, some ⟨some (plainMotor 2)⟩]⟩, none, none, none, none, none]
    _motorLockoutMask := 0
    previous_dir := INITIAL_PREVIOUS_DIR }

/-- A machine with three axes of which Y is left unconfigured. -/
def sparseAxes : Axes :=
  { _numberAxis := 3
    _sharedStepperDisable := ⟨true⟩
    _axis := ![some exampleX, none,
      some ⟨2, ![some ⟨some (homingMotor 5)⟩, some ⟨some (plainMotor 6)⟩]⟩, none, none, none]
    _motorLockoutMask := 0
    previous_dir := INITIAL_PREVIOUS_DIR }

end Axes

/-! ## Further traces, predicates and example machines -/

/-- The event is a step edge (a `step` call on a motor). -/
def Event.isStepEdge : Event → Bool
  | .motor _ _ .step => true
  | _ => false

/-- The operations of the axes manager, with their arguments. -/
inductive Operation where
  | init
  | set_disable_axis (axis : Nat) (disable : Bool)
  | set_disable (disable : Bool)
  | read_settings
  | set_homing_mode (axisMask : Nat) (isHoming : Bool)
  | unlock_all_motors
  | lock_motors (mask : Nat)
  | unlock_motors (mask : Nat)
  | step (step_mask dir_mask : Nat)
  | unstep
  deriving DecidableEq, Repr

namespace Axes

/-- The manager after an operation. The bodies of `set_disable`,
`read_settings` and `unstep` assign no member of the manager, so it is left as
it was; the other operations give the manager their embedding computes. -/
def perform (s : Axes) : Operation → Axes
  | .init => s.init.1
  | .set_disable_axis _ _ => s
  | .set_disable _ => s
  | .read_settings => s
  | .set_homing_mode axisMask isHoming => (s.set_homing_mode axisMask isHoming).1
  | .unlock_all_motors => s.unlock_all_motors
  | .lock_motors mask => s.lock_motors mask
  | .unlock_motors mask => s.unlock_motors mask
  | .step step_mask dir_mask => (s.step step_mask dir_mask).1
  | .unstep => s

/-- Slot `(i, j)` of the table holds the motor of identity `m`. -/
def holdsMotor (s : Axes) (i j m : Nat) : Bool :=
  match s.axisAt i with
  | .ok (some a) =>
      match a.motorIn j with
      | some motor => motor.id == m
      | none => false
  | _ => false

/-- Gang slot `gang` of axis `axis` is present (the axis and the gang pointer
are non-null); its motor may be missing. -/
def gangPresent (s : Axes) (axis gang : Nat) : Bool :=
  match s.axisAt axis with
  | .ok (some a) =>
      match a.gangAt gang with
      | .ok (some _) => true
      | _ => false
  | _ => false

/-- Slot `(axis, gang)` holds a motor. -/
def motorPresent (s : Axes) (axis gang : Nat) : Bool :=
  match s.axisAt axis with
  | .ok (some a) => (a.motorIn gang).isSome
  | _ => false

/-- Every axis below `_numberAxis` is present and both of its gang slots are
present; a gang may lack its motor. -/
def GangsPresent (s : Axes) : Prop :=
  ∀ axis, axis < s._numberAxis →
    s.gangPresent axis 0 = true ∧ s.gangPresent axis 1 = true

instance (s : Axes) : Decidable s.GangsPresent := by
  unfold GangsPresent; infer_instance

/-- Calls made by `set_disable(axis, disable)` on the motors of a full axis. -/
def disableCalls (disable : Bool) (axis : Nat) : List Event :=
  [.motor axis 0 (.set_disable disable), .motor axis 1 (.set_disable disable)]

/-- Calls made by one iteration of the axis loop of `init`. -/
def initCalls (s : Axes) (axis : Nat) : List Event :=
  if s.axisPresent axis then [.axis_init axis] else []

/-- Direction writes of `step` for one axis whose gangs are present: each gang
that has a motor receives bit `axis` of `dir_mask`, gang 0 first. -/
def directionWrites (s : Axes) (dir_mask axis : Nat) : List Event :=
  (if s.motorPresent axis 0 then [.motor axis 0 (.set_direction (dir_mask.testBit axis))]
   else []) ++
  (if s.motorPresent axis 1 then [.motor axis 1 (.set_direction (dir_mask.testBit axis))]
   else [])

/-- A freshly started machine without any axis. -/
def emptyAxes : Axes := Axes.new 0 ⟨false⟩ 0

/-- A machine whose axis X has a null gang 0 and a motor of identity 7 in
gang 1. -/
def nullGangAxes : Axes :=
  { _numberAxis := 1
    _sharedStepperDisable := ⟨true⟩
    _axis := ![some ⟨0, ![none, some ⟨some (plainMotor 7)⟩]⟩, none, none, none, none, none]
    _motorLockoutMask := 0
    previous_dir := INITIAL_PREVIOUS_DIR }

/-- A freshly started machine whose axis X has a motor in gang 0 only and whose
axis Y has both motors; all gang slots are present. -/
def oneMotorAxes : Axes :=
  { _numberAxis := 2
    _sharedStepperDisable := ⟨false⟩
    _axis := ![some ⟨0, ![some ⟨some (homingMotor 1)⟩, some ⟨none⟩]⟩, some exampleY,
      none, none, none, none]
    _motorLockoutMask := 0
    previous_dir := INITIAL_PREVIOUS_DIR }

end Axes





/-! # Theorems -/

/-! ## Bit helpers -/

theorem bitnum_to_mask_eq (n : Nat) : bitnum_to_mask n = 2 ^ n := by
  unfold bitnum_to_mask; exact Nat.one_shiftLeft n

theorem and_two_pow_eq_zero_iff (t n : Nat) : t &&& 2 ^ n = 0 ↔ t.testBit n = false := by
  constructor
  · intro h
    have h1 : (t &&& 2 ^ n).testBit n = false := by rw [h]; simp
    simpa [Nat.testBit_two_pow_self] using h1
  · intro h
    apply Nat.eq_of_testBit_eq
    intro i
    by_cases hi : n = i
    · subst hi; simp [h]
    · simp [Nat.testBit_two_pow, hi]

theorem bitnum_is_true_eq (t n : Nat) : bitnum_is_true t n = t.testBit n := by
  unfold bitnum_is_true
  rw [bitnum_to_mask_eq]
  cases h : t.testBit n
  · simp [(and_two_pow_eq_zero_iff t n).2 h]
  · have : t &&& 2 ^ n ≠ 0 := fun h0 => by
      rw [(and_two_pow_eq_zero_iff t n).1 h0] at h; cases h
    simp [this]

theorem bitnum_is_false_eq (t n : Nat) : bitnum_is_false t n = !t.testBit n := by
  unfold bitnum_is_false
  rw [bitnum_to_mask_eq]
  cases h : t.testBit n
  · simp [(and_two_pow_eq_zero_iff t n).2 h]
  · have : t &&& 2 ^ n ≠ 0 := fun h0 => by
      rw [(and_two_pow_eq_zero_iff t n).1 h0] at h; cases h
    simp [this]

theorem testBit_set_bitnum (t n b : Nat) :
    (set_bitnum t n).testBit b = (decide (b < MOTOR_MASK_BITS) && (t.testBit b || decide (n = b))) := by
  unfold set_bitnum
  rw [bitnum_to_mask_eq]
  simp [Nat.testBit_two_pow]

theorem testBit_set_bits (t m b : Nat) :
    (set_bits t m).testBit b = (decide (b < MOTOR_MASK_BITS) && (t.testBit b || m.testBit b)) := by
  unfold set_bits
  simp

theorem testBit_clear_bits (t m b : Nat) :
    (clear_bits t m).testBit b = (decide (b < MOTOR_MASK_BITS) && (t.testBit b && !m.testBit b)) := by
  unfold clear_bits
  by_cases hb : b < MOTOR_MASK_BITS <;> simp [hb]

/-! ## Outcomes and loops -/

namespace Outcome

@[simp] theorem pure_eq {α : Type} (a : α) : (pure a : Outcome α) = ⟨[], .ok a⟩ := rfl

@[simp] theorem bind_eq {α β : Type} (o : Outcome α) (k : α → Outcome β) :
    (o >>= k) = Outcome.bind o k := rfl

@[simp] theorem bind_ok {α β : Type} (t : List Event) (a : α) (k : α → Outcome β) :
    Outcome.bind ⟨t, .ok a⟩ k = ⟨t ++ (k a).trace, (k a).result⟩ := rfl

@[simp] theorem bind_error {α β : Type} (t : List Event) (f : Fault) (k : α → Outcome β) :
    Outcome.bind ⟨t, .error f⟩ k = ⟨t, .error f⟩ := rfl

@[simp] theorem lift_eq {α : Type} (x : Except Fault α) : lift x = ⟨[], x⟩ := rfl

@[simp] theorem emit_eq (e : Event) : emit e = ⟨[e], .ok ()⟩ := rfl

@[simp] theorem ret_eq {α : Type} (a : α) : ret a = ⟨[], .ok a⟩ := rfl

theorem bind_trace_forall {α β : Type} (P : Event → Prop) (o : Outcome α) (k : α → Outcome β)
    (ho : ∀ e ∈ o.trace, P e) (hk : ∀ a, ∀ e ∈ (k a).trace, P e) :
    ∀ e ∈ (Outcome.bind o k).trace, P e := by
  intro e he
  unfold Outcome.bind at he
  cases hr : o.result with
  | error f => rw [hr] at he; exact ho e he
  | ok a =>
    rw [hr] at he
    rcases List.mem_append.1 he with h | h
    · exact ho e h
    · exact hk a e h

end Outcome

theorem forLoop_ok {σ : Type} (body : Nat → σ → Outcome σ) (t : Nat → List Event)
    (g : Nat → σ → σ) :
    ∀ (l : List Nat) (acc : σ), (∀ i ∈ l, ∀ a, body i a = ⟨t i, .ok (g i a)⟩) →
      forLoop l acc body = ⟨l.flatMap t, .ok (l.foldl (fun a i => g i a) acc)⟩
  | [], acc, _ => rfl
  | i :: rest, acc, h => by
    have hi := h i (List.mem_cons_self _ _) acc
    have hrest := forLoop_ok body t g rest (g i acc)
      (fun j hj a => h j (List.mem_cons_of_mem _ hj) a)
    simp [forLoop, hi, hrest]

theorem forLoop_trace_forall {σ : Type} (P : Event → Prop) (body : Nat → σ → Outcome σ) :
    ∀ (l : List Nat) (acc : σ), (∀ i ∈ l, ∀ a, ∀ e ∈ (body i a).trace, P e) →
      ∀ e ∈ (forLoop l acc body).trace, P e
  | [], _, _ => by intro e he; simp [forLoop] at he
  | i :: rest, acc, h => by
    unfold forLoop
    apply Outcome.bind_trace_forall P
    · exact h i (List.mem_cons_self _ _) acc
    · intro a
      exact forLoop_trace_forall P body rest a (fun j hj b => h j (List.mem_cons_of_mem _ hj) b)

theorem range_gangs : List.range Axis.MAX_NUMBER_GANGED = [0, 1] := rfl

namespace Axes

theorem axisFull_elim (s : Axes) (axis : Nat) (h : s.axisFull axis = true) :
    ∃ a g0 g1 m0 m1, s.axisAt axis = .ok (some a) ∧
      a.gangAt 0 = .ok (some g0) ∧ a.gangAt 1 = .ok (some g1) ∧
      g0._motor = some m0 ∧ g1._motor = some m1 := by
  unfold axisFull at h
  split at h
  · rename_i a ha
    refine ⟨a, ?_⟩
    unfold Axis.hasBothMotors Axis.motorIn at h
    rw [Bool.and_eq_true] at h
    obtain ⟨h0, h1⟩ := h
    split at h0
    · rename_i g0 hg0
      split at h1
      · rename_i g1 hg1
        obtain ⟨m0, hm0⟩ := Option.isSome_iff_exists.1 h0
        obtain ⟨m1, hm1⟩ := Option.isSome_iff_exists.1 h1
        exact ⟨g0, g1, m0, m1, ha, hg0, hg1, hm0, hm1⟩
      · cases h1
    · cases h0
  · cases h

theorem axisAt_lt (s : Axes) (axis : Nat) (a : Option Axis) (h : s.axisAt axis = .ok a) :
    axis < MAX_N_AXIS := by
  unfold axisAt at h
  split at h
  · assumption
  · cases h

theorem axisFull_lt (s : Axes) (axis : Nat) (h : s.axisFull axis = true) : axis < MAX_N_AXIS := by
  obtain ⟨a, _, _, _, _, ha, _⟩ := axisFull_elim s axis h
  exact axisAt_lt s axis _ ha

theorem axisAbsent_elim (s : Axes) (axis : Nat) (h : s.axisAbsent axis = true) :
    s.axisAt axis = .ok none := by
  unfold axisAbsent at h
  split at h
  · assumption
  · cases h

theorem unstep_axis_full (s : Axes) (axis : Nat) (h : s.axisFull axis = true) (u : Unit) :
    (forLoop (List.range Axis.MAX_NUMBER_GANGED) u fun gang_index _ => do
      let a ← Outcome.lift (s.motorAt axis gang_index)
      let _ ← Outcome.lift (deref a)
      Outcome.emit (.motor axis gang_index .unstep)
      Outcome.emit (.motor axis gang_index .unstep)) = ⟨unstepCalls axis, .ok ()⟩ := by
  obtain ⟨a, g0, g1, m0, m1, ha, hg0, hg1, hm0, hm1⟩ := axisFull_elim s axis h
  simp [range_gangs, forLoop, motorAt, motorOf, ha, hg0, hg1, hm0, hm1, deref, unstepCalls,
    bind, Except.bind, pure, Except.pure]

/-! ## `set_homing_mode` -/

theorem axisPresent_of_full (s : Axes) (axis : Nat) (h : s.axisFull axis = true) :
    s.axisPresent axis = true := by
  obtain ⟨a, _, _, _, _, ha, _⟩ := axisFull_elim s axis h
  simp [axisPresent, ha]

theorem motorCanHome_present (s : Axes) (axis gang : Nat) (isHoming : Bool)
    (h : s.motorCanHome axis gang isHoming = true) : s.axisPresent axis = true := by
  unfold motorCanHome at h
  unfold axisPresent
  split at h
  · rename_i a ha; simp [ha]
  · cases h

theorem axisPresent_lt (s : Axes) (axis : Nat) (h : s.axisPresent axis = true) :
    axis < MAX_N_AXIS := by
  unfold axisPresent at h
  split at h
  · rename_i a ha; exact axisAt_lt s axis _ ha
  · cases h

theorem set_homing_mode_axis_eq (s : Axes) (axisMask : Nat) (isHoming : Bool) (axis acc : Nat)
    (h : s.axisAbsent axis = true ∨ s.axisFull axis = true) :
    set_homing_mode_axis s axisMask isHoming axis acc =
      ⟨homingCalls s axisMask isHoming axis, .ok (homingStep s axisMask isHoming axis acc)⟩ := by
  unfold set_homing_mode_axis homingCalls homingStep
  rw [bitnum_is_true_eq]
  cases hb : axisMask.testBit axis
  · simp
  · rcases h with h | h
    · have ha := axisAbsent_elim s axis h
      simp [ha, axisPresent]
    · obtain ⟨a, g0, g1, m0, m1, ha, hg0, hg1, hm0, hm1⟩ := axisFull_elim s axis h
      simp only [Outcome.lift_eq, Outcome.bind_eq, Outcome.bind_ok, ha, List.nil_append,
        range_gangs, forLoop, set_homing_mode_gang, hg0, hg1, hm0, hm1, deref, Outcome.emit_eq,
        axisPresent, motorCanHome, Axis.motorIn, Bool.and_self, if_true]
      cases h0 : m0.set_homing_mode isHoming <;> cases h1 : m1.set_homing_mode isHoming <;> simp

theorem set_homing_mode_eq (s : Axes) (axisMask : Nat) (isHoming : Bool) (h : s.AbsentOrFull) :
    (s.set_homing_mode axisMask isHoming).2 =
      ⟨(List.range s._numberAxis).flatMap (homingCalls s axisMask isHoming),
        .ok ((List.range s._numberAxis).foldl
          (fun acc axis => homingStep s axisMask isHoming axis acc) 0)⟩ := by
  unfold set_homing_mode
  exact forLoop_ok _ (homingCalls s axisMask isHoming) (homingStep s axisMask isHoming) _ 0
    (fun i hi a => set_homing_mode_axis_eq s.unlock_all_motors axisMask isHoming i a
      (h i (List.mem_range.1 hi)))

theorem homingStep_testBit (s : Axes) (axisMask : Nat) (isHoming : Bool) (axis acc b : Nat)
    (hacc : acc.testBit b = true → b < MOTOR_MASK_BITS) :
    (homingStep s axisMask isHoming axis acc).testBit b = true ↔
      acc.testBit b = true ∨ homingContrib s axisMask isHoming axis b := by
  have hlt : ∀ g, s.motorCanHome axis g isHoming = true → axis < 6 := fun g hg =>
    axisPresent_lt s axis (motorCanHome_present s axis g isHoming hg)
  unfold homingStep homingContrib
  cases hm : axisMask.testBit axis
  · simp
  · cases hp : s.axisPresent axis
    · have h0 : s.motorCanHome axis 0 isHoming = false := by
        cases h : s.motorCanHome axis 0 isHoming
        · rfl
        · rw [motorCanHome_present s axis 0 isHoming h] at hp; cases hp
      have h1 : s.motorCanHome axis 1 isHoming = false := by
        cases h : s.motorCanHome axis 1 isHoming
        · rfl
        · rw [motorCanHome_present s axis 1 isHoming h] at hp; cases hp
      simp [h0, h1]
    · have hax : axis < 6 := axisPresent_lt s axis hp
      cases h0 : s.motorCanHome axis 0 isHoming <;> cases h1 : s.motorCanHome axis 1 isHoming <;>
        simp [testBit_set_bitnum, MOTOR_MASK_BITS] <;>
        by_cases hb : acc.testBit b = true <;>
        simp [hb] <;> (try have := hacc hb) <;> (try simp [MOTOR_MASK_BITS] at this) <;> omega

theorem homing_fold_testBit (s : Axes) (axisMask : Nat) (isHoming : Bool) (b : Nat) :
    ∀ n, ((List.range n).foldl (fun acc axis => homingStep s axisMask isHoming axis acc) 0).testBit b
        = true ↔ ∃ axis, axis < n ∧ homingContrib s axisMask isHoming axis b := by
  intro n
  induction n with
  | zero => simp
  | succ n ih =>
    rw [List.range_succ, List.foldl_append]
    simp only [List.foldl_cons, List.foldl_nil]
    rw [homingStep_testBit, ih]
    · constructor
      · rintro (⟨axis, hlt, hc⟩ | hc)
        · exact ⟨axis, Nat.lt_succ_of_lt hlt, hc⟩
        · exact ⟨n, Nat.lt_succ_self n, hc⟩
      · rintro ⟨axis, hlt, hc⟩
        rcases Nat.lt_succ_iff_lt_or_eq.1 hlt with h | h
        · exact Or.inl ⟨axis, h, hc⟩
        · subst h; exact Or.inr hc
    · intro hb
      obtain ⟨axis, _, _, hc⟩ := ih.1 hb
      have hlt : ∀ g, s.motorCanHome axis g isHoming = true → axis < 6 := fun g hg =>
        axisPresent_lt s axis (motorCanHome_present s axis g isHoming hg)
      rcases hc with ⟨rfl, h0⟩ | ⟨rfl, h1⟩
      · have := hlt 0 h0; simp only [MOTOR_MASK_BITS]; omega
      · have := hlt 1 h1; simp only [MOTOR_MASK_BITS]; omega

end Axes

/-- C1. On a table in which every axis below `_numberAxis` is absent or has a
motor in both gang slots, `set_homing_mode` returns a mask in which, for every
slot `(axis, gang)` of the addressing convention (16 axes, 2 gangs), bit
`gang * 16 + axis` is set exactly when `axis < _numberAxis`, bit `axis` of
`axisMask` is set, the axis is present and the motor of that slot answers
`true`; no bit from 32 upwards is set, so every other bit is clear. -/
theorem set_homing_mode_mask (s : Axes) (axisMask : Nat) (isHoming : Bool)
    (h : s.AbsentOrFull) :
    ∃ mask, (s.set_homing_mode axisMask isHoming).2.result = .ok mask ∧
      (∀ axis gang, axis < 16 → gang < Axis.MAX_NUMBER_GANGED →
        (mask.testBit (gang * 16 + axis) = true ↔
          (axis < s._numberAxis ∧ axisMask.testBit axis = true ∧
            s.axisPresent axis = true ∧ s.motorCanHome axis gang isHoming = true))) ∧
      (∀ b, 32 ≤ b → mask.testBit b = false) := by
  refine ⟨_, by rw [Axes.set_homing_mode_eq s axisMask isHoming h], ?_, ?_⟩
  · intro axis gang hax hg
    rw [Axes.homing_fold_testBit]
    have hlt : ∀ a g, s.motorCanHome a g isHoming = true → a < 6 := fun a g hg =>
      Axes.axisPresent_lt s a (Axes.motorCanHome_present s a g isHoming hg)
    have hg2 : gang = 0 ∨ gang = 1 := by
      simp only [Axis.MAX_NUMBER_GANGED] at hg; omega
    constructor
    · rintro ⟨a, han, hm, hc⟩
      rcases hc with ⟨hb, h0⟩ | ⟨hb, h1⟩
      · have := hlt a 0 h0
        have hga : gang = 0 ∧ axis = a := by omega
        obtain ⟨rfl, rfl⟩ := hga
        exact ⟨han, hm, Axes.motorCanHome_present s axis 0 isHoming h0, h0⟩
      · have := hlt a 1 h1
        have hga : gang = 1 ∧ axis = a := by omega
        obtain ⟨rfl, rfl⟩ := hga
        exact ⟨han, hm, Axes.motorCanHome_present s axis 1 isHoming h1, h1⟩
    · rintro ⟨han, hm, _, hc⟩
      refine ⟨axis, han, hm, ?_⟩
      rcases hg2 with rfl | rfl
      · exact Or.inl ⟨by omega, hc⟩
      · exact Or.inr ⟨by omega, hc⟩
  · intro b hb
    cases hbit : ((List.range s._numberAxis).foldl
        (fun acc axis => Axes.homingStep s axisMask isHoming axis acc) 0).testBit b
    · rfl
    · obtain ⟨a, _, _, hc⟩ := (Axes.homing_fold_testBit s axisMask isHoming b _).1 hbit
      have hlt : ∀ g, s.motorCanHome a g isHoming = true → a < 6 := fun g hg =>
        Axes.axisPresent_lt s a (Axes.motorCanHome_present s a g isHoming hg)
      rcases hc with ⟨rfl, h0⟩ | ⟨rfl, h1⟩
      · have := hlt 0 h0; omega
      · have := hlt 1 h1; omega

/-- Witness for C1 on the example machine: X and Y selected; the returned
mask is 3, that is bits 0 and 1 set and bit 17 clear. -/
theorem set_homing_mode_mask_witness :
    Axes.exampleAxes.AbsentOrFull ∧
    (Axes.exampleAxes.set_homing_mode 3 true).2.result = .ok 3 ∧
    (∃ mask, (Axes.exampleAxes.set_homing_mode 3 true).2.result = .ok mask ∧
      (∀ axis gang, axis < 16 → gang < Axis.MAX_NUMBER_GANGED →
        (mask.testBit (gang * 16 + axis) = true ↔
          (axis < Axes.exampleAxes._numberAxis ∧ Nat.testBit 3 axis = true ∧
            Axes.exampleAxes.axisPresent axis = true ∧
            Axes.exampleAxes.motorCanHome axis gang true = true))) ∧
      (∀ b, 32 ≤ b → mask.testBit b = false)) :=
  ⟨by decide, rfl, set_homing_mode_mask Axes.exampleAxes 3 true (by decide)⟩

/-- C6. Whatever the prior lockout mask, the axis mask and `isHoming`, the
lockout mask of the manager is empty once `set_homing_mode` has run (the
clearing is its first statement), and the call returns on every table whose
axes below `_numberAxis` are absent or have a motor in both gang slots. -/
theorem set_homing_mode_clears_lockout (s : Axes) (axisMask : Nat) (isHoming : Bool) :
    (s.set_homing_mode axisMask isHoming).1._motorLockoutMask = 0 ∧
    (s.AbsentOrFull → (s.set_homing_mode axisMask isHoming).2.returned) := by
  refine ⟨rfl, fun h => ?_⟩
  rw [Axes.set_homing_mode_eq s axisMask isHoming h]
  exact ⟨_, rfl⟩

/-- Witness for C6: three axes with Y left unconfigured, motors 0 and 17
locked out, and an axis mask that names all three axes. -/
theorem set_homing_mode_clears_lockout_witness :
    ((Axes.sparseAxes.lock_motors 131073).set_homing_mode 7 false).1._motorLockoutMask = 0 ∧
    (Axes.sparseAxes.lock_motors 131073).AbsentOrFull ∧
    ((Axes.sparseAxes.lock_motors 131073).set_homing_mode 7 false).2.returned :=
  have h := set_homing_mode_clears_lockout (Axes.sparseAxes.lock_motors 131073) 7 false
  ⟨h.1, by decide, h.2 (by decide)⟩

namespace Axes

/-! ## `step` -/

theorem step_motor_full (axis gang : Nat) (a : Axis) (g : Gang) (m : Motor)
    (hg : a.gangAt gang = .ok (some g)) (hm : g._motor = some m) :
    step_motor (some a) axis gang = ⟨[.motor axis gang .step], .ok ()⟩ := by
  simp [step_motor, motorOf, hg, hm, deref, bind, Except.bind, pure, Except.pure]

theorem step_pulses_axis_full (s : Axes) (step_mask axis : Nat) (h : s.axisFull axis = true) :
    (if bitnum_is_true step_mask axis then do
        let a ← Outcome.lift (s.axisAt axis)
        if bitnum_is_false s._motorLockoutMask axis then
          step_motor a axis 0
        if bitnum_is_false s._motorLockoutMask (axis + 16) then
          step_motor a axis 1
      else
        pure ()) = (⟨pulseCalls s step_mask axis, .ok ()⟩ : Outcome Unit) := by
  obtain ⟨a, g0, g1, m0, m1, ha, hg0, hg1, hm0, hm1⟩ := axisFull_elim s axis h
  rw [bitnum_is_true_eq, bitnum_is_false_eq, bitnum_is_false_eq]
  unfold pulseCalls
  cases hb : step_mask.testBit axis
  · simp
  · cases h0 : s._motorLockoutMask.testBit axis <;>
      cases h1 : s._motorLockoutMask.testBit (axis + 16) <;>
      simp [ha, step_motor_full axis 0 a g0 m0 hg0 hm0, step_motor_full axis 1 a g1 m1 hg1 hm1]

theorem step_pulses_eq (s : Axes) (step_mask : Nat) (h : s.FullyPopulated) :
    step_pulses s step_mask =
      ⟨(List.range s._numberAxis).flatMap (pulseCalls s step_mask), .ok ()⟩ := by
  unfold step_pulses
  have := forLoop_ok (σ := Unit) _ (pulseCalls s step_mask) (fun _ u => u)
    (List.range s._numberAxis) ()
    (fun i hi _ => step_pulses_axis_full s step_mask i (h i (List.mem_range.1 hi)))
  simpa using this

theorem step_directions_axis_full (s : Axes) (dir_mask axis : Nat) (h : s.axisFull axis = true)
    (u : Unit) :
    (forLoop (List.range Axis.MAX_NUMBER_GANGED) u fun gang_index _ => do
      let a ← Outcome.lift (s.motorAt axis gang_index)
      if a.isSome then
        Outcome.emit (.motor axis gang_index (.set_direction (bitnum_is_true dir_mask axis))))
      = ⟨directionCalls dir_mask axis, .ok ()⟩ := by
  obtain ⟨a, g0, g1, m0, m1, ha, hg0, hg1, hm0, hm1⟩ := axisFull_elim s axis h
  simp [range_gangs, forLoop, motorAt, motorOf, ha, hg0, hg1, hm0, hm1, deref, directionCalls,
    bitnum_is_true_eq, bind, Except.bind, pure, Except.pure]

theorem step_set_directions_eq (s : Axes) (dir_mask : Nat) (h : s.FullyPopulated) :
    step_set_directions s dir_mask =
      ⟨(List.range s._numberAxis).flatMap (directionCalls dir_mask) ++ [.waitDirection],
        .ok ()⟩ := by
  have := forLoop_ok (σ := Unit) _ (directionCalls dir_mask) (fun _ u => u)
    (List.range s._numberAxis) ()
    (fun i hi u => step_directions_axis_full s dir_mask i (h i (List.mem_range.1 hi)) u)
  unfold step_set_directions
  exact (congrArg (fun o => Outcome.bind o (fun _ => Outcome.emit .waitDirection)) this).trans
    (by simp)

theorem step_eq (s : Axes) (step_mask dir_mask : Nat) (h : s.FullyPopulated) :
    (s.step step_mask dir_mask).2 = ⟨stepTrace s step_mask dir_mask, .ok ()⟩ := by
  unfold step stepTrace
  by_cases hd : dir_mask % 256 = s.previous_dir
  · simp [hd, step_pulses_eq s _ h]
  · simp [hd, step_pulses_eq s _ h, step_set_directions_eq s _ h]

theorem step_state (s : Axes) (step_mask dir_mask : Nat) :
    (s.step step_mask dir_mask).1 = { s with previous_dir := dir_mask % 256 } := by
  unfold step
  by_cases hd : dir_mask % 256 = s.previous_dir
  · simp [hd]
  · simp [hd]

end Axes

/-! ## Counting calls in the trace of a loop over the axes -/

theorem count_flatMap_range (f : Nat → List Event) (e : Event) (k : Nat)
    (h : ∀ i, i ≠ k → e ∉ f i) (n : Nat) :
    ((List.range n).flatMap f).count e = if k < n then (f k).count e else 0 := by
  induction n with
  | zero => simp
  | succ n ih =>
    rw [List.range_succ, List.flatMap_append, List.count_append, ih]
    simp only [List.flatMap_cons, List.flatMap_nil, List.append_nil]
    by_cases hk : n = k
    · subst hk; simp
    · rw [List.count_eq_zero_of_not_mem (h n hk)]
      have : (k < n + 1) ↔ (k < n) := by omega
      simp [this]

theorem testBit_mod_256 (x i : Nat) (h : i < 8) : (x % 256).testBit i = x.testBit i := by
  have := Nat.testBit_mod_two_pow x 8 i
  simpa [h] using this

namespace Axes

theorem slot_bit_cases (L gang i : Nat) :
    (gang < Axis.MAX_NUMBER_GANGED ∧ L.testBit (gang * 16 + i) = false) ↔
      ((gang = 0 ∧ L.testBit i = false) ∨ (gang = 1 ∧ L.testBit (i + 16) = false)) := by
  simp only [Axis.MAX_NUMBER_GANGED]
  constructor
  · rintro ⟨hlt, hbit⟩
    have : gang = 0 ∨ gang = 1 := by omega
    rcases this with rfl | rfl
    · left; exact ⟨rfl, by simpa using hbit⟩
    · right; refine ⟨rfl, ?_⟩; rwa [show 1 * 16 + i = i + 16 by omega] at hbit
  · rintro (⟨rfl, h⟩ | ⟨rfl, h⟩)
    · exact ⟨by omega, by simpa using h⟩
    · exact ⟨by omega, by rwa [show 1 * 16 + i = i + 16 by omega]⟩

theorem mem_pulseCalls (s : Axes) (step_mask axis gang i : Nat) :
    Event.motor axis gang .step ∈ pulseCalls s step_mask i ↔
      (i = axis ∧ step_mask.testBit i = true ∧ gang < Axis.MAX_NUMBER_GANGED ∧
        s._motorLockoutMask.testBit (gang * 16 + i) = false) := by
  rw [slot_bit_cases]
  unfold pulseCalls
  cases hb : step_mask.testBit i
  · simp
  · cases h0 : s._motorLockoutMask.testBit i <;>
      cases h1 : s._motorLockoutMask.testBit (i + 16) <;>
      simp <;> omega

theorem count_pulseCalls_le_one (s : Axes) (step_mask i : Nat) (e : Event) :
    (pulseCalls s step_mask i).count e ≤ 1 := by
  have hn : (pulseCalls s step_mask i).Nodup := by
    unfold pulseCalls
    cases hb : step_mask.testBit i
    · simp
    · cases h0 : s._motorLockoutMask.testBit i <;>
        cases h1 : s._motorLockoutMask.testBit (i + 16) <;> simp
  exact List.nodup_iff_count_le_one.1 hn e

theorem not_step_mem_directionCalls (dir_mask axis gang i : Nat) :
    Event.motor axis gang .step ∉ directionCalls dir_mask i := by
  simp [directionCalls]

theorem mem_stepTrace_step (s : Axes) (step_mask dir_mask axis gang : Nat) :
    Event.motor axis gang .step ∈ stepTrace s step_mask dir_mask ↔
      (axis < s._numberAxis ∧ (step_mask % 256).testBit axis = true ∧
        gang < Axis.MAX_NUMBER_GANGED ∧ s._motorLockoutMask.testBit (gang * 16 + axis) = false) := by
  unfold stepTrace
  simp only [List.mem_append, List.mem_flatMap, List.mem_range, mem_pulseCalls]
  constructor
  · rintro ((h | h) | ⟨i, hi, rfl, h⟩)
    · split at h
      · cases h
      · rcases List.mem_append.1 h with h | h
        · obtain ⟨i, _, hi⟩ := List.mem_flatMap.1 h
          exact absurd hi (not_step_mem_directionCalls _ _ _ _)
        · simp at h
    · simp at h
    · exact ⟨hi, h⟩
  · rintro ⟨hi, h⟩
    exact Or.inr ⟨axis, hi, rfl, h⟩

theorem count_stepTrace_step (s : Axes) (step_mask dir_mask axis gang : Nat) :
    (stepTrace s step_mask dir_mask).count (Event.motor axis gang .step) ≤ 1 := by
  unfold stepTrace
  have hd : (if dir_mask % 256 = s.previous_dir then []
      else (List.range s._numberAxis).flatMap (directionCalls (dir_mask % 256)) ++
        [Event.waitDirection]).count (Event.motor axis gang .step) = 0 := by
    apply List.count_eq_zero_of_not_mem
    intro h
    split at h
    · cases h
    · rcases List.mem_append.1 h with h | h
      · obtain ⟨i, _, hi⟩ := List.mem_flatMap.1 h
        exact absurd hi (not_step_mem_directionCalls _ _ _ _)
      · simp at h
  rw [List.count_append, List.count_append, hd,
    count_flatMap_range (pulseCalls s (step_mask % 256)) _ axis
      (fun i hi hmem => hi ((mem_pulseCalls s _ axis gang i).1 hmem).1)]
  have := count_pulseCalls_le_one s (step_mask % 256) axis (Event.motor axis gang .step)
  split
  · simp; omega
  · simp

/-! ## `step` on an arbitrary table: which step edges can appear -/

theorem step_motor_trace (a : Option Axis) (axis gang : Nat) :
    ∀ e ∈ (step_motor a axis gang).trace, e = Event.motor axis gang .step := by
  intro e he
  unfold step_motor at he
  cases hm : motorOf a gang with
  | error f => simp [hm] at he
  | ok m =>
    cases m with
    | none => simp [hm, deref] at he
    | some m => simpa [hm, deref] using he

theorem step_pulses_trace (s : Axes) (step_mask : Nat) :
    ∀ e ∈ (step_pulses s step_mask).trace, allowedEdge s._motorLockoutMask s._numberAxis e := by
  unfold step_pulses
  apply forLoop_trace_forall
  intro i hi _ e he
  have hin := List.mem_range.1 hi
  split at he
  · revert e
    apply Outcome.bind_trace_forall
    · intro e he; simp at he
    · intro a
      have h0 : ∀ e ∈ (step_motor a i 0).trace, bitnum_is_false s._motorLockoutMask i = true →
          allowedEdge s._motorLockoutMask s._numberAxis e := by
        intro e he hl
        rw [bitnum_is_false_eq] at hl
        have := step_motor_trace a i 0 e he
        subst this
        intro axis gang heq
        cases heq
        exact ⟨hin, by simp [Axis.MAX_NUMBER_GANGED], by simpa using hl⟩
      have h1 : ∀ e ∈ (step_motor a i 1).trace,
          bitnum_is_false s._motorLockoutMask (i + 16) = true →
          allowedEdge s._motorLockoutMask s._numberAxis e := by
        intro e he hl
        rw [bitnum_is_false_eq] at hl
        have := step_motor_trace a i 1 e he
        subst this
        intro axis gang heq
        cases heq
        refine ⟨hin, by simp [Axis.MAX_NUMBER_GANGED], ?_⟩
        rw [show 1 * 16 + i = i + 16 by omega]
        simpa using hl
      have hjp : ∀ (y : PUnit), ∀ e ∈ (if bitnum_is_false s._motorLockoutMask (i + 16) = true
          then step_motor a i 1 else pure PUnit.unit).trace,
          allowedEdge s._motorLockoutMask s._numberAxis e := by
        intro _ e he
        split at he
        · rename_i hl; exact h1 e he hl
        · simp at he
      dsimp only
      split
      · rename_i hl
        apply Outcome.bind_trace_forall _ _ _ (fun e he => h0 e he hl) hjp
      · apply Outcome.bind_trace_forall _ _ _ _ hjp
        intro e he; simp at he
  · simp at he

theorem step_set_directions_trace (s : Axes) (dir_mask : Nat) :
    ∀ e ∈ (step_set_directions s dir_mask).trace, ∀ axis gang, e ≠ Event.motor axis gang .step := by
  unfold step_set_directions
  apply Outcome.bind_trace_forall
  · apply forLoop_trace_forall
    intro i _ _
    apply forLoop_trace_forall
    intro g _ _
    apply Outcome.bind_trace_forall
    · intro e he; simp at he
    · intro a e he
      split at he
      · simp at he; subst he; intro axis gang h; cases h
      · simp at he
  · intro _ e he
    simp at he; subst he; intro axis gang h; cases h

theorem step_trace_allowed (s : Axes) (step_mask dir_mask : Nat) :
    ∀ e ∈ (s.step step_mask dir_mask).2.trace,
      allowedEdge s._motorLockoutMask s._numberAxis e := by
  have hp := step_pulses_trace s (step_mask % 256)
  have hstart : ∀ e ∈ (Outcome.emit Event.startPulseTimer).trace,
      allowedEdge s._motorLockoutMask s._numberAxis e := by
    intro e he; simp at he; subst he; intro axis gang h; cases h
  unfold step
  dsimp only
  split
  · apply Outcome.bind_trace_forall
    · intro e he axis gang heq
      exact absurd heq (step_set_directions_trace s _ e he axis gang)
    · intro _
      apply Outcome.bind_trace_forall _ _ _ hstart
      intro _; exact hp
  · apply Outcome.bind_trace_forall _ _ _ hstart
    intro _; exact hp

theorem fullyPopulated_lt (s : Axes) (h : s.FullyPopulated) (axis : Nat)
    (hax : axis < s._numberAxis) : axis < 6 :=
  axisFull_lt s axis (h axis hax)

theorem testBit_lock_motors (s : Axes) (M b : Nat) (hb : b < 32) :
    (s.lock_motors M)._motorLockoutMask.testBit b = (s._motorLockoutMask.testBit b || M.testBit b) := by
  have h32 : (M % 2 ^ 32).testBit b = M.testBit b := by
    rw [Nat.testBit_mod_two_pow]; simp [hb]
  simp only [lock_motors, testBit_set_bits, MOTOR_MASK_BITS, h32]
  simp [hb]

/-! ## `unstep` -/

theorem unstep_eq (s : Axes) (h : s.FullyPopulated) :
    s.unstep = ⟨[Event.waitPulse] ++ (List.range s._numberAxis).flatMap unstepCalls ++
      [Event.finishPulse], .ok ()⟩ := by
  have := forLoop_ok (σ := Unit) _ unstepCalls (fun _ u => u) (List.range s._numberAxis) ()
    (fun i hi u => unstep_axis_full s i (h i (List.mem_range.1 hi)) u)
  unfold unstep
  exact (congrArg (fun o => Outcome.bind (Outcome.emit .waitPulse)
    (fun _ => Outcome.bind o (fun _ => Outcome.emit .finishPulse))) this).trans (by simp)

end Axes

/-- C2. On a fully populated table `step` returns, and for each gang index
`gang < 2` a step edge reaches the motor of slot `(axis, gang)` exactly when
`axis < _numberAxis`, bit `axis` of `step_mask` is set and bit
`gang * 16 + axis` of the lockout mask is clear; the motor receives at most
one edge per call; and locking any set `M` of motors that does not contain
the slot (in particular locking its sibling) does not change whether the
slot receives its edge. -/
theorem step_edges_gated (s : Axes) (step_mask dir_mask : Nat) (h : s.FullyPopulated) :
    (s.step step_mask dir_mask).2.result = .ok () ∧
    (∀ axis gang, gang < Axis.MAX_NUMBER_GANGED →
      ((Event.motor axis gang .step ∈ (s.step step_mask dir_mask).2.trace ↔
          (axis < s._numberAxis ∧ step_mask.testBit axis = true ∧
            s._motorLockoutMask.testBit (gang * 16 + axis) = false)) ∧
        (s.step step_mask dir_mask).2.trace.count (Event.motor axis gang .step) ≤ 1)) ∧
    (∀ M axis gang, gang < Axis.MAX_NUMBER_GANGED → M.testBit (gang * 16 + axis) = false →
      (Event.motor axis gang .step ∈ ((s.lock_motors M).step step_mask dir_mask).2.trace ↔
        Event.motor axis gang .step ∈ (s.step step_mask dir_mask).2.trace)) := by
  have key : ∀ (t : Axes), t.FullyPopulated → ∀ axis gang, gang < Axis.MAX_NUMBER_GANGED →
      (Event.motor axis gang .step ∈ (t.step step_mask dir_mask).2.trace ↔
        (axis < t._numberAxis ∧ step_mask.testBit axis = true ∧
          t._motorLockoutMask.testBit (gang * 16 + axis) = false)) := by
    intro t ht axis gang hg
    rw [Axes.step_eq t step_mask dir_mask ht, Axes.mem_stepTrace_step]
    constructor
    · rintro ⟨hax, hb, _, hl⟩
      have := Axes.fullyPopulated_lt t ht axis hax
      rw [testBit_mod_256 _ _ (by omega)] at hb
      exact ⟨hax, hb, hl⟩
    · rintro ⟨hax, hb, hl⟩
      have := Axes.fullyPopulated_lt t ht axis hax
      rw [← testBit_mod_256 _ _ (by omega)] at hb
      exact ⟨hax, hb, hg, hl⟩
  refine ⟨by rw [Axes.step_eq s step_mask dir_mask h], ?_, ?_⟩
  · intro axis gang hg
    refine ⟨key s h axis gang hg, ?_⟩
    rw [Axes.step_eq s step_mask dir_mask h]
    exact Axes.count_stepTrace_step s step_mask dir_mask axis gang
  · intro M axis gang hg hM
    have hfull : (s.lock_motors M).FullyPopulated := h
    rw [key s h axis gang hg, key _ hfull axis gang hg]
    constructor
    · rintro ⟨hax, hb, hl⟩
      have := Axes.fullyPopulated_lt s h axis hax
      simp only [Axis.MAX_NUMBER_GANGED] at hg
      rw [Axes.testBit_lock_motors s M _ (by omega)] at hl
      simp at hl
      exact ⟨hax, hb, hl.1⟩
    · rintro ⟨hax, hb, hl⟩
      have := Axes.fullyPopulated_lt s h axis hax
      simp only [Axis.MAX_NUMBER_GANGED] at hg
      refine ⟨hax, hb, ?_⟩
      rw [Axes.testBit_lock_motors s M _ (by omega)]
      simp [hl, hM]

/-- Witness for C2: the example machine with Y-gang1 (bit 17) locked, stepping
X and Y; Y-gang0 still receives its edge. -/
theorem step_edges_gated_witness :
    (Axes.exampleAxes.lock_motors 131072).FullyPopulated ∧
    Event.motor 1 0 .step ∈ ((Axes.exampleAxes.lock_motors 131072).step 3 0).2.trace ∧
    Event.motor 1 1 .step ∉ ((Axes.exampleAxes.lock_motors 131072).step 3 0).2.trace :=
  have h := step_edges_gated (Axes.exampleAxes.lock_motors 131072) 3 0 (by decide)
  ⟨by decide, ((h.2.1 1 0 (by decide)).1).2 (by decide),
    fun hmem => absurd (((h.2.1 1 1 (by decide)).1).1 hmem).2.2 (by decide)⟩

/-- C3. After `lock_motors(M)`, whatever the prior lockout mask, `step_mask`
and `dir_mask`, `step` issues no step edge to a slot `(axis, gang)` whose bit
`gang * 16 + axis` is set in `M` (on any table); and on a fully populated
table both `step` and the `unstep` that follows return, and that `unstep`
issues the unstep call to every motor below `_numberAxis`, locked or not. -/
theorem locked_motor_not_stepped (s : Axes) (M step_mask dir_mask : Nat) :
    (∀ axis gang, axis < 16 → gang < Axis.MAX_NUMBER_GANGED →
      M.testBit (gang * 16 + axis) = true →
      Event.motor axis gang .step ∉ ((s.lock_motors M).step step_mask dir_mask).2.trace) ∧
    (s.FullyPopulated →
      ((s.lock_motors M).step step_mask dir_mask).2.result = .ok () ∧
      ((s.lock_motors M).step step_mask dir_mask).1.unstep.result = .ok () ∧
      ∀ axis gang, axis < s._numberAxis → gang < Axis.MAX_NUMBER_GANGED →
        Event.motor axis gang .unstep ∈
          ((s.lock_motors M).step step_mask dir_mask).1.unstep.trace) := by
  constructor
  · intro axis gang hax hg hM hmem
    have := (Axes.step_trace_allowed (s.lock_motors M) step_mask dir_mask _ hmem axis gang rfl).2.2
    simp only [Axis.MAX_NUMBER_GANGED] at hg
    rw [Axes.testBit_lock_motors s M _ (by omega), hM] at this
    simp at this
  · intro h
    have hfull : (s.lock_motors M).FullyPopulated := h
    have hfull2 : ((s.lock_motors M).step step_mask dir_mask).1.FullyPopulated := by
      rw [Axes.step_state]; exact h
    have hn : ((s.lock_motors M).step step_mask dir_mask).1._numberAxis = s._numberAxis := by
      rw [Axes.step_state]; rfl
    refine ⟨by rw [Axes.step_eq _ step_mask dir_mask hfull], by rw [Axes.unstep_eq _ hfull2], ?_⟩
    intro axis gang hax hg
    rw [Axes.unstep_eq _ hfull2, hn]
    have hg2 : gang = 0 ∨ gang = 1 := by
      simp only [Axis.MAX_NUMBER_GANGED] at hg; omega
    simp only [List.mem_append, List.mem_flatMap, List.mem_range]
    refine Or.inl (Or.inr ⟨axis, hax, ?_⟩)
    rcases hg2 with rfl | rfl <;> simp [Axes.unstepCalls]

/-- Witness for C3: on the example machine `lock_motors` of bit 17 followed by
a step covering X and Y omits the edge of Y-gang1, issues the edges of X and
of Y-gang0, and the following `unstep` still reaches Y-gang1. -/
theorem locked_motor_not_stepped_witness :
    Axes.exampleAxes.FullyPopulated ∧
    Event.motor 1 1 .step ∉ ((Axes.exampleAxes.lock_motors 131072).step 3 0).2.trace ∧
    Event.motor 0 0 .step ∈ ((Axes.exampleAxes.lock_motors 131072).step 3 0).2.trace ∧
    Event.motor 1 0 .step ∈ ((Axes.exampleAxes.lock_motors 131072).step 3 0).2.trace ∧
    Event.motor 1 1 .unstep ∈ ((Axes.exampleAxes.lock_motors 131072).step 3 0).1.unstep.trace :=
  have h := locked_motor_not_stepped Axes.exampleAxes 131072 3 0
  ⟨by decide, h.1 1 1 (by decide) (by decide) (by decide), by decide, by decide,
    (h.2 (by decide)).2.2 1 1 (by decide) (by decide)⟩

/-- C5. On a fully populated table `unstep` returns and its calls are, in
order: the pulse-width wait; for each axis below `_numberAxis` in increasing
order, two unstep calls on gang 0 then two on gang 1; the pulse-finished
signal. The calls do not depend on the lockout mask (on any table). -/
theorem unstep_sequence (s : Axes) (h : s.FullyPopulated) :
    s.unstep.result = .ok () ∧
    s.unstep.trace = [Event.waitPulse] ++
      (List.range s._numberAxis).flatMap (fun axis =>
        [Event.motor axis 0 .unstep, Event.motor axis 0 .unstep,
         Event.motor axis 1 .unstep, Event.motor axis 1 .unstep]) ++
      [Event.finishPulse] ∧
    (∀ L, ({ s with _motorLockoutMask := L } : Axes).unstep = s.unstep) := by
  refine ⟨by rw [Axes.unstep_eq s h], by rw [Axes.unstep_eq s h]; rfl, fun L => rfl⟩

/-- Witness for C5: the example machine, with a motor locked out. -/
theorem unstep_sequence_witness :
    (Axes.exampleAxes.lock_motors 131072).FullyPopulated ∧
    (Axes.exampleAxes.lock_motors 131072).unstep.trace =
      [Event.waitPulse,
       Event.motor 0 0 .unstep, Event.motor 0 0 .unstep,
       Event.motor 0 1 .unstep, Event.motor 0 1 .unstep,
       Event.motor 1 0 .unstep, Event.motor 1 0 .unstep,
       Event.motor 1 1 .unstep, Event.motor 1 1 .unstep,
       Event.finishPulse] :=
  ⟨by decide, (unstep_sequence (Axes.exampleAxes.lock_motors 131072) (by decide)).2.1⟩

namespace Axes

theorem pulseCalls_isSetDirection (s : Axes) (step_mask i : Nat) :
    ∀ e ∈ pulseCalls s step_mask i, e.isSetDirection = false ∧ e ≠ Event.startPulseTimer := by
  intro e he
  unfold pulseCalls at he
  split at he
  · rcases List.mem_append.1 he with h | h <;> split at h <;> simp at h <;> subst h <;>
      simp [Event.isSetDirection]
  · cases he

theorem any_isSetDirection_stepTrace (s : Axes) (step_mask dir_mask : Nat) :
    (stepTrace s step_mask dir_mask).any Event.isSetDirection = true ↔
      (dir_mask % 256 ≠ s.previous_dir ∧ 0 < s._numberAxis) := by
  unfold stepTrace
  rw [List.any_eq_true]
  constructor
  · rintro ⟨e, he, hp⟩
    rcases List.mem_append.1 he with he | he
    · rcases List.mem_append.1 he with he | he
      · split at he
        · cases he
        · rename_i hne
          refine ⟨hne, ?_⟩
          rcases List.mem_append.1 he with he | he
          · obtain ⟨i, hi, _⟩ := List.mem_flatMap.1 he
            have := List.mem_range.1 hi
            omega
          · simp at he; subst he; simp [Event.isSetDirection] at hp
      · simp at he; subst he; simp [Event.isSetDirection] at hp
    · obtain ⟨i, _, hi⟩ := List.mem_flatMap.1 he
      rw [(pulseCalls_isSetDirection s _ i e hi).1] at hp
      cases hp
  · rintro ⟨hne, hn⟩
    refine ⟨Event.motor 0 0 (.set_direction ((dir_mask % 256).testBit 0)), ?_, rfl⟩
    apply List.mem_append_left
    apply List.mem_append_left
    rw [if_neg hne]
    apply List.mem_append_left
    exact List.mem_flatMap.2 ⟨0, List.mem_range.2 hn, by simp [directionCalls]⟩

end Axes

namespace Axes

/-! ## Lockout mask operations -/

theorem testBit_lt_32 (L b : Nat) (hL : L < 2 ^ 32) (hb : L.testBit b = true) : b < 32 := by
  by_contra hge
  have h1 : L < 2 ^ b := Nat.lt_of_lt_of_le hL (Nat.pow_le_pow_right (by decide) (by omega))
  rw [Nat.testBit_lt_two_pow h1] at hb
  cases hb

theorem lock_motors_mask (s : Axes) (M : Nat) (hL : s._motorLockoutMask < 2 ^ 32)
    (hM : M < 2 ^ 32) : (s.lock_motors M)._motorLockoutMask = s._motorLockoutMask ||| M := by
  have h1 : M % 2 ^ 32 = M := Nat.mod_eq_of_lt hM
  have h2 : s._motorLockoutMask ||| M < 2 ^ 32 := Nat.or_lt_two_pow hL hM
  simp only [lock_motors, set_bits, MOTOR_MASK_BITS, h1, Nat.mod_eq_of_lt h2]

theorem testBit_unlock_motors (s : Axes) (M b : Nat) (hL : s._motorLockoutMask < 2 ^ 32) :
    (s.unlock_motors M)._motorLockoutMask.testBit b =
      (s._motorLockoutMask.testBit b && !M.testBit b) := by
  simp only [unlock_motors, testBit_clear_bits, MOTOR_MASK_BITS, Nat.testBit_mod_two_pow]
  by_cases hb : b < 32
  · simp [hb]
  · have : s._motorLockoutMask.testBit b = false := by
      cases h : s._motorLockoutMask.testBit b
      · rfl
      · exact absurd (testBit_lt_32 _ b hL h) hb
    simp [hb, this]

theorem unlock_motors_lt (s : Axes) (M : Nat) (hL : s._motorLockoutMask < 2 ^ 32) :
    (s.unlock_motors M)._motorLockoutMask < 2 ^ 32 := by
  simp only [unlock_motors, clear_bits]
  exact Nat.lt_of_le_of_lt Nat.and_le_left hL

end Axes

/-- C7. For 32-bit masks `L` (the lockout mask) and `M`: `lock_motors(M)`
leaves `L OR M`; `unlock_motors(M)` leaves `L AND NOT M` (bit `b` of the
result is bit `b` of `L` and not bit `b` of `M`); `unlock_all_motors()` leaves
0. Both are idempotent, neither changes a bit outside `M`, and
`lock_motors(M)` followed by `unlock_motors(M)` gives the same mask as
`unlock_motors(M)` alone, which is `L` exactly when `L AND M = 0`. -/
theorem lockout_mask_algebra (s : Axes) (M : Nat) (hL : s._motorLockoutMask < 2 ^ 32)
    (hM : M < 2 ^ 32) :
    (s.lock_motors M)._motorLockoutMask = s._motorLockoutMask ||| M ∧
    (∀ b, (s.unlock_motors M)._motorLockoutMask.testBit b =
      (s._motorLockoutMask.testBit b && !M.testBit b)) ∧
    s.unlock_all_motors._motorLockoutMask = 0 ∧
    ((s.lock_motors M).lock_motors M)._motorLockoutMask = (s.lock_motors M)._motorLockoutMask ∧
    ((s.unlock_motors M).unlock_motors M)._motorLockoutMask =
      (s.unlock_motors M)._motorLockoutMask ∧
    (∀ b, M.testBit b = false →
      (s.lock_motors M)._motorLockoutMask.testBit b = s._motorLockoutMask.testBit b ∧
      (s.unlock_motors M)._motorLockoutMask.testBit b = s._motorLockoutMask.testBit b) ∧
    ((s.lock_motors M).unlock_motors M)._motorLockoutMask =
      (s.unlock_motors M)._motorLockoutMask ∧
    (((s.lock_motors M).unlock_motors M)._motorLockoutMask = s._motorLockoutMask ↔
      s._motorLockoutMask &&& M = 0) := by
  have hlock := Axes.lock_motors_mask s M hL hM
  have hlock_lt : (s.lock_motors M)._motorLockoutMask < 2 ^ 32 := by
    rw [hlock]; exact Nat.or_lt_two_pow hL hM
  have hunlock := Axes.testBit_unlock_motors s M
  have hlu : ((s.lock_motors M).unlock_motors M)._motorLockoutMask =
      (s.unlock_motors M)._motorLockoutMask := by
    apply Nat.eq_of_testBit_eq
    intro b
    rw [Axes.testBit_unlock_motors _ M b hlock_lt, hunlock b hL, hlock]
    cases h1 : s._motorLockoutMask.testBit b <;> cases h2 : M.testBit b <;> simp [h1, h2]
  refine ⟨hlock, fun b => hunlock b hL, rfl, ?_, ?_, ?_, hlu, ?_⟩
  · rw [Axes.lock_motors_mask _ M hlock_lt hM, hlock]
    apply Nat.eq_of_testBit_eq
    intro b
    cases h1 : s._motorLockoutMask.testBit b <;> cases h2 : M.testBit b <;> simp [h1, h2]
  · apply Nat.eq_of_testBit_eq
    intro b
    rw [Axes.testBit_unlock_motors _ M b (Axes.unlock_motors_lt s M hL), hunlock b hL]
    cases h1 : s._motorLockoutMask.testBit b <;> cases h2 : M.testBit b <;> simp [h1, h2]
  · intro b hb
    rw [hlock, hunlock b hL]
    simp [hb]
  · rw [hlu]
    constructor
    · intro h
      apply Nat.eq_of_testBit_eq
      intro b
      have hb := hunlock b hL
      rw [h] at hb
      cases h1 : s._motorLockoutMask.testBit b <;> cases h2 : M.testBit b <;>
        simp [h1, h2] at hb ⊢
    · intro h
      apply Nat.eq_of_testBit_eq
      intro b
      rw [hunlock b hL]
      have hb : (s._motorLockoutMask &&& M).testBit b = false := by rw [h]; simp
      cases h1 : s._motorLockoutMask.testBit b <;> cases h2 : M.testBit b <;>
        simp [h1, h2] at hb ⊢

/-- Witness for C7: the example machine with motors 0 and 17 locked, and the
mask of motors 1 and 17. -/
theorem lockout_mask_algebra_witness :
    (Axes.exampleAxes.lock_motors 131073)._motorLockoutMask < 2 ^ 32 ∧
    ((Axes.exampleAxes.lock_motors 131073).lock_motors 131074)._motorLockoutMask = 131075 ∧
    ((Axes.exampleAxes.lock_motors 131073).unlock_motors 131074)._motorLockoutMask = 1 :=
  have h := lockout_mask_algebra (Axes.exampleAxes.lock_motors 131073) 131074 (by decide)
    (by decide)
  ⟨by decide, h.1.trans (by decide), by decide⟩

end Machine

namespace Pins

open Machine (Fault)

/-- C8. On an error pin every `write` and every `read` ends in the failed
assertion and returns no value; `setAttr` returns for every attribute set and
leaves the pin as it was; after any sequence of `setAttr` calls `getAttr` is
the empty attribute set; `capabilities` is `PinCapabilities::Error`. -/
theorem error_pin_contract (p : ErrorPinDetail) :
    (∀ high, p.write high = .error (Fault.assertion "Cannot write to an error pin.")) ∧
    p.read = .error (Fault.assertion "Cannot read from an error pin.") ∧
    (∀ attrs, p.setAttr attrs = .ok p) ∧
    (∀ attrsList : List PinAttributes,
      ∃ q, attrsList.foldlM (fun r attrs => r.setAttr attrs) p = .ok q ∧
        q.getAttr = PinAttributes.None) ∧
    p.getAttr = PinAttributes.None ∧
    p.capabilities = PinCapabilities.Error := by
  refine ⟨fun _ => rfl, rfl, fun _ => rfl, ?_, rfl, rfl⟩
  intro attrsList
  refine ⟨p, ?_, rfl⟩
  induction attrsList with
  | nil => rfl
  | cons a rest ih => simpa [List.foldlM, ErrorPinDetail.setAttr, bind, Except.bind] using ih

end Pins

namespace Machine

theorem filter_flatMap_range (f : Nat → List Event) (p : Event → Bool) (k : Nat) :
    ∀ n, (∀ i, i < n → i ≠ k → (f i).filter p = []) →
      ((List.range n).flatMap f).filter p = if k < n then (f k).filter p else [] := by
  intro n
  induction n with
  | zero => simp
  | succ n ih =>
    intro h
    rw [List.range_succ, List.flatMap_append, List.filter_append,
      ih (fun i hi hne => h i (Nat.lt_succ_of_lt hi) hne)]
    simp only [List.flatMap_cons, List.flatMap_nil, List.append_nil]
    by_cases hk : n = k
    · subst hk; simp
    · rw [h n (Nat.lt_succ_self n) hk]
      have : (k < n + 1) ↔ (k < n) := by omega
      simp [this]

namespace Axes

/-! ## `read_settings` -/

theorem read_settings_axis_eq (s : Axes) (axis : Nat)
    (h : s.axisAbsent axis = true ∨ s.axisFull axis = true) :
    (forLoopBreak (List.range Axis.MAX_NUMBER_GANGED) fun gang_index =>
      read_settings_gang s axis gang_index) = ⟨readCalls s axis, .ok ()⟩ := by
  rcases h with h | h
  · have ha := axisAbsent_elim s axis h
    simp [range_gangs, forLoopBreak, read_settings_gang, ha, readCalls, h]
  · obtain ⟨a, g0, g1, m0, m1, ha, hg0, hg1, hm0, hm1⟩ := axisFull_elim s axis h
    have hna : s.axisAbsent axis = false := by simp [axisAbsent, ha]
    simp [range_gangs, forLoopBreak, read_settings_gang, ha, hg0, hg1, hm0, hm1, deref,
      readCalls, hna]

theorem read_settings_eq (s : Axes) (h : s.AbsentOrFull) :
    s.read_settings = ⟨(List.range s._numberAxis).flatMap (readCalls s), .ok ()⟩ := by
  have := forLoop_ok (σ := Unit) _ (readCalls s) (fun _ u => u) (List.range s._numberAxis) ()
    (fun i hi _ => read_settings_axis_eq s i (h i (List.mem_range.1 hi)))
  unfold read_settings
  exact this.trans (by simp)

theorem axisAbsent_not_full (s : Axes) (axis : Nat) (h : s.axisFull axis = true) :
    s.axisAbsent axis = false := by
  obtain ⟨a, _, _, _, _, ha, _⟩ := axisFull_elim s axis h
  simp [axisAbsent, ha]

end Axes

/-- C9, at a failing input: axis X is present, its gang 0 is present and has
no motor. `read_settings` logs "No motor for axis 0 gang 0" and then calls
`read_settings` through the null motor pointer: the call ends in a
null-dereference fault instead of skipping the slot and returning. -/
theorem read_settings_null_motor_faults :
    Axes.nullMotorAxes.read_settings.trace = [Event.log_info (LogMessage.noMotor 0 0)] ∧
    Axes.nullMotorAxes.read_settings.result = .error Fault.nullDereference := by
  constructor
  · decide
  · rfl

/-- C10. When exactly one axis `Y` below `_numberAxis` is absent and every
other axis below `_numberAxis` has a motor in both gang slots,
`read_settings` returns, its only log message is "No specification for axis
Y", no `read_settings` call is made through a slot of `Y`, and each motor of
every other axis below `_numberAxis` receives exactly one `read_settings`
call. -/
theorem read_settings_one_axis_absent (s : Axes) (Y : Nat) (hY : Y < s._numberAxis)
    (habs : s.axisAbsent Y = true)
    (hfull : ∀ axis, axis < s._numberAxis → axis ≠ Y → s.axisFull axis = true) :
    s.read_settings.result = .ok () ∧
    s.read_settings.trace.filter Event.isLog = [Event.log_info (LogMessage.noAxisSpecification Y)] ∧
    (∀ gang, s.read_settings.trace.count (Event.motor Y gang .read_settings) = 0) ∧
    (∀ axis gang, axis < s._numberAxis → axis ≠ Y → gang < Axis.MAX_NUMBER_GANGED →
      s.read_settings.trace.count (Event.motor axis gang .read_settings) = 1) := by
  have haf : s.AbsentOrFull := by
    intro axis hax
    by_cases h : axis = Y
    · subst h; exact Or.inl habs
    · exact Or.inr (hfull axis hax h)
  have hmem : ∀ axis gang i, Event.motor axis gang .read_settings ∈ Axes.readCalls s i →
      i = axis ∧ s.axisAbsent axis = false := by
    intro axis gang i hm
    unfold Axes.readCalls at hm
    split at hm
    · simp at hm
    · rename_i hna
      simp at hm
      rcases hm with ⟨rfl, _⟩ | ⟨rfl, _⟩ <;> exact ⟨rfl, by simpa using hna⟩
  rw [Axes.read_settings_eq s haf]
  refine ⟨rfl, ?_, ?_, ?_⟩
  · rw [filter_flatMap_range (Axes.readCalls s) Event.isLog Y s._numberAxis]
    · simp [hY, Axes.readCalls, habs, Event.isLog]
    · intro i hin hi
      simp [Axes.readCalls, Axes.axisAbsent_not_full s i (hfull i hin hi), Event.isLog]
  · intro gang
    apply List.count_eq_zero_of_not_mem
    intro hm
    obtain ⟨i, _, hi⟩ := List.mem_flatMap.1 hm
    have := (hmem Y gang i hi).2
    rw [habs] at this
    cases this
  · intro axis gang hax hne hg
    rw [count_flatMap_range (Axes.readCalls s) _ axis
      (fun i hi hm => hi (hmem axis gang i hm).1)]
    have hg2 : gang = 0 ∨ gang = 1 := by
      simp only [Axis.MAX_NUMBER_GANGED] at hg; omega
    rcases hg2 with rfl | rfl <;>
      simp [hax, Axes.readCalls, Axes.axisAbsent_not_full s axis (hfull axis hax hne)]

/-- Witness for C10: three axes with Y left unconfigured. -/
theorem read_settings_one_axis_absent_witness :
    Axes.sparseAxes.read_settings.result = .ok () ∧
    Axes.sparseAxes.read_settings.trace =
      [Event.motor 0 0 .read_settings, Event.motor 0 1 .read_settings,
       Event.log_info (LogMessage.noAxisSpecification 1),
       Event.motor 2 0 .read_settings, Event.motor 2 1 .read_settings] ∧
    Axes.sparseAxes.read_settings.trace.filter Event.isLog =
      [Event.log_info (LogMessage.noAxisSpecification 1)] :=
  have h := read_settings_one_axis_absent Axes.sparseAxes 1 (by decide) (by decide) (by decide)
  ⟨h.1, by decide, h.2.1⟩

namespace Axes

/-! ## `set_disable` and `init` -/

theorem fullyPopulated_absentOrFull (s : Axes) (h : s.FullyPopulated) : s.AbsentOrFull :=
  fun axis hax => Or.inr (h axis hax)

theorem set_disable_gangs_full (s : Axes) (axis : Nat) (disable : Bool)
    (h : s.axisFull axis = true) (u : Unit) :
    (forLoop (List.range Axis.MAX_NUMBER_GANGED) u fun gang_index _ => do
      let a ← Outcome.lift (s.motorAt axis gang_index)
      let _ ← Outcome.lift (deref a)
      Outcome.emit (.motor axis gang_index (.set_disable disable)))
      = ⟨disableCalls disable axis, .ok ()⟩ := by
  obtain ⟨a, g0, g1, m0, m1, ha, hg0, hg1, hm0, hm1⟩ := axisFull_elim s axis h
  simp [range_gangs, forLoop, motorAt, motorOf, ha, hg0, hg1, hm0, hm1, deref, disableCalls,
    bind, Except.bind, pure, Except.pure]

theorem set_disable_axis_eq (s : Axes) (axis : Nat) (disable : Bool)
    (h : s.axisFull axis = true) :
    s.set_disable_axis axis disable =
      ⟨disableCalls disable axis ++ [Event.pin_write disable], .ok ()⟩ := by
  unfold set_disable_axis
  exact (congrArg (fun o => Outcome.bind o (fun _ => Outcome.emit (.pin_write disable)))
    (set_disable_gangs_full s axis disable h ())).trans (by simp)

theorem set_disable_eq (s : Axes) (disable : Bool) (h : s.FullyPopulated) :
    s.set_disable disable =
      ⟨(List.range s._numberAxis).flatMap
          (fun axis => disableCalls disable axis ++ [Event.pin_write disable]) ++
        [Event.pin_write disable], .ok ()⟩ := by
  have := forLoop_ok (σ := Unit) (fun axis _ => s.set_disable_axis axis disable)
    (fun axis => disableCalls disable axis ++ [Event.pin_write disable]) (fun _ u => u)
    (List.range s._numberAxis) ()
    (fun i hi _ => set_disable_axis_eq s i disable (h i (List.mem_range.1 hi)))
  unfold set_disable
  exact (congrArg (fun o => Outcome.bind o (fun _ => Outcome.emit (.pin_write disable)))
    this).trans (by simp)

theorem flatMap_if_singleton (l : List Nat) (p : Nat → Bool) (f : Nat → Event) :
    l.flatMap (fun i => if p i then [f i] else []) = (l.filter p).map f := by
  induction l with
  | nil => rfl
  | cons i rest ih =>
    rw [List.flatMap_cons, ih]
    cases hp : p i <;> simp [List.filter_cons, hp]

theorem init_axis_eq (s : Axes) (axis : Nat) (hax : axis < MAX_N_AXIS) :
    (do
      let a ← Outcome.lift (s.axisAt axis)
      if a.isSome then
        Outcome.emit (.axis_init axis) : Outcome Unit) = ⟨initCalls s axis, .ok ()⟩ := by
  unfold initCalls axisPresent
  have ha : s.axisAt axis = .ok (s._axis ⟨axis, hax⟩) := by simp [axisAt, hax]
  cases hs : s._axis ⟨axis, hax⟩ <;> simp [ha, hs]

theorem init_eq (s : Axes) (hn : s._numberAxis ≤ MAX_N_AXIS) :
    s.init.2 = ⟨[Event.log_info (LogMessage.axisCount s._numberAxis)] ++
      (if s._sharedStepperDisable.defined then [Event.pin_setAttr_Output, Event.pin_report]
       else []) ++
      ((List.range s._numberAxis).filter (fun i => s.axisPresent i)).map Event.axis_init,
      .ok ()⟩ := by
  have := forLoop_ok (σ := Unit) _ (initCalls s) (fun _ u => u) (List.range s._numberAxis) ()
    (fun i hi _ => init_axis_eq s.unlock_all_motors i
      (Nat.lt_of_lt_of_le (List.mem_range.1 hi) hn))
  have hfm : (List.range s._numberAxis).flatMap (initCalls s) =
      ((List.range s._numberAxis).filter (fun i => s.axisPresent i)).map Event.axis_init :=
    flatMap_if_singleton _ _ _
  unfold init
  cases hd : s._sharedStepperDisable.defined
  · simp only [hd]
    exact (congrArg (fun o => Outcome.bind
      (Outcome.emit (.log_info (.axisCount s._numberAxis))) (fun _ => o)) this).trans
      (by simp [hfm])
  · simp only [hd]
    exact (congrArg (fun o => Outcome.bind
      (Outcome.emit (.log_info (.axisCount s._numberAxis)))
      (fun _ => Outcome.bind (Outcome.bind (Outcome.emit .pin_setAttr_Output)
        (fun _ => Outcome.emit .pin_report)) (fun _ => o))) this).trans
      (by simp [hfm])

end Axes

/-- C19. On a table whose axes below `_numberAxis` are all present with a
motor in both gang slots, for every lockout mask (it is part of `s`), step
mask, direction mask, axis mask and disable value, the operations `step`,
`unstep`, `set_disable(disable)`, `set_disable(axis, disable)` with
`axis < _numberAxis`, `set_homing_mode` and `read_settings` all return: no
null pointer is followed and no slot outside the table is read. -/
theorem populated_operations_return (s : Axes) (step_mask dir_mask axisMask : Nat)
    (isHoming disable : Bool) (h : s.FullyPopulated) :
    (s.step step_mask dir_mask).2.result = .ok () ∧
    s.unstep.result = .ok () ∧
    (s.set_disable disable).result = .ok () ∧
    (∀ axis, axis < s._numberAxis → (s.set_disable_axis axis disable).result = .ok ()) ∧
    (s.set_homing_mode axisMask isHoming).2.returned ∧
    s.read_settings.result = .ok () := by
  refine ⟨by rw [Axes.step_eq s _ _ h], by rw [Axes.unstep_eq s h],
    by rw [Axes.set_disable_eq s disable h], ?_, ?_, ?_⟩
  · intro axis hax
    rw [Axes.set_disable_axis_eq s axis disable (h axis hax)]
  · rw [Axes.set_homing_mode_eq s axisMask isHoming (Axes.fullyPopulated_absentOrFull s h)]
    exact ⟨_, rfl⟩
  · rw [Axes.read_settings_eq s (Axes.fullyPopulated_absentOrFull s h)]

/-- Witness for C19: the example machine with motors 0 and 17 locked out. -/
theorem populated_operations_return_witness :
    (Axes.exampleAxes.lock_motors 131073).FullyPopulated ∧
    ((Axes.exampleAxes.lock_motors 131073).step 3 1).2.result = .ok () ∧
    (Axes.exampleAxes.lock_motors 131073).unstep.result = .ok () ∧
    ((Axes.exampleAxes.lock_motors 131073).set_disable true).result = .ok () ∧
    ((Axes.exampleAxes.lock_motors 131073).set_disable_axis 1 true).result = .ok () ∧
    (Axes.exampleAxes.lock_motors 131073).read_settings.result = .ok () :=
  have h := populated_operations_return (Axes.exampleAxes.lock_motors 131073) 3 1 3 true true
    (by decide)
  ⟨by decide, h.1, h.2.1, h.2.2.1, h.2.2.2.1 1 (by decide), h.2.2.2.2.2⟩

/-- C12. On a fully populated table, for every `disable`:
`set_disable(axis, disable)` with `axis < _numberAxis` returns after exactly
the calls `set_disable(disable)` on gang 0 and on gang 1 of that axis and one
write of `disable` to the shared disable line; `set_disable(disable)` returns,
calls `set_disable(disable)` exactly once on every gang motor of every axis
below `_numberAxis`, makes no other call than these and writes of `disable` to
the shared line, and makes at least one such write (also when `_numberAxis`
is 0). -/
theorem set_disable_broadcast (s : Axes) (disable : Bool) (h : s.FullyPopulated) :
    (∀ axis, axis < s._numberAxis →
      (s.set_disable_axis axis disable).result = .ok () ∧
      (s.set_disable_axis axis disable).trace =
        [Event.motor axis 0 (.set_disable disable), Event.motor axis 1 (.set_disable disable),
         Event.pin_write disable]) ∧
    (s.set_disable disable).result = .ok () ∧
    (∀ axis gang, axis < s._numberAxis → gang < Axis.MAX_NUMBER_GANGED →
      (s.set_disable disable).trace.count (Event.motor axis gang (.set_disable disable)) = 1) ∧
    (∀ e ∈ (s.set_disable disable).trace, e = Event.pin_write disable ∨
      ∃ axis gang, axis < s._numberAxis ∧ gang < Axis.MAX_NUMBER_GANGED ∧
        e = Event.motor axis gang (.set_disable disable)) ∧
    Event.pin_write disable ∈ (s.set_disable disable).trace := by
  refine ⟨?_, by rw [Axes.set_disable_eq s disable h], ?_, ?_, ?_⟩
  · intro axis hax
    rw [Axes.set_disable_axis_eq s axis disable (h axis hax)]
    exact ⟨rfl, rfl⟩
  · intro axis gang hax hg
    rw [Axes.set_disable_eq s disable h, List.count_append,
      count_flatMap_range _ _ axis (fun i hi hm => hi (by
        simp only [Axes.disableCalls, List.mem_append, List.mem_cons, List.mem_singleton,
          List.not_mem_nil, or_false] at hm
        rcases hm with (hm | hm) | hm
        · cases hm; rfl
        · cases hm; rfl
        · cases hm))]
    have hg2 : gang = 0 ∨ gang = 1 := by
      simp only [Axis.MAX_NUMBER_GANGED] at hg; omega
    rcases hg2 with rfl | rfl <;> simp [hax, Axes.disableCalls]
  · intro e he
    rw [Axes.set_disable_eq s disable h] at he
    rcases List.mem_append.1 he with he | he
    · obtain ⟨i, hi, hm⟩ := List.mem_flatMap.1 he
      have hin := List.mem_range.1 hi
      simp only [Axes.disableCalls, List.mem_append, List.mem_cons, List.mem_singleton,
        List.not_mem_nil, or_false] at hm
      rcases hm with (hm | hm) | hm
      · exact Or.inr ⟨i, 0, hin, by simp [Axis.MAX_NUMBER_GANGED], hm⟩
      · exact Or.inr ⟨i, 1, hin, by simp [Axis.MAX_NUMBER_GANGED], hm⟩
      · exact Or.inl hm
    · simp at he; exact Or.inl he
  · rw [Axes.set_disable_eq s disable h]
    simp

/-- Witness for C12: the example machine, and the machine without axes, whose
`set_disable` still writes the shared line once. -/
theorem set_disable_broadcast_witness :
    Axes.exampleAxes.FullyPopulated ∧
    (Axes.exampleAxes.set_disable_axis 1 true).trace =
      [Event.motor 1 0 (.set_disable true), Event.motor 1 1 (.set_disable true),
       Event.pin_write true] ∧
    Axes.emptyAxes.FullyPopulated ∧
    Event.pin_write false ∈ (Axes.emptyAxes.set_disable false).trace :=
  ⟨by decide, ((set_disable_broadcast Axes.exampleAxes true (by decide)).1 1 (by decide)).2,
    by decide, (set_disable_broadcast Axes.emptyAxes false (by decide)).2.2.2.2⟩

/-- C15. Frame of the manager state: `step` (for all its arguments) and
`unstep` leave the lockout mask as it was, and every operation other than
`step` (`unstep`, `lock_motors`, `unlock_motors`, `unlock_all_motors`,
`set_homing_mode`, both `set_disable`, `read_settings`, `init`) leaves the
cached direction as it was. -/
theorem state_frame (s : Axes) :
    (∀ step_mask dir_mask,
      (s.perform (.step step_mask dir_mask))._motorLockoutMask = s._motorLockoutMask) ∧
    (s.perform .unstep)._motorLockoutMask = s._motorLockoutMask ∧
    (∀ op : Operation, (∀ step_mask dir_mask, op ≠ .step step_mask dir_mask) →
      (s.perform op).previous_dir = s.previous_dir) := by
  refine ⟨fun step_mask dir_mask => ?_, rfl, fun op hop => ?_⟩
  · show (s.step step_mask dir_mask).1._motorLockoutMask = s._motorLockoutMask
    rw [Axes.step_state]
  · cases op with
    | step step_mask dir_mask => exact absurd rfl (hop step_mask dir_mask)
    | _ => rfl

/-- Witness for C15: on the example machine with motor 17 locked out, a step
that changes the direction keeps the lockout mask, and `set_homing_mode`
keeps the cached direction. -/
theorem state_frame_witness :
    ((Axes.exampleAxes.lock_motors 131072).perform (.step 3 2))._motorLockoutMask = 131072 ∧
    ((Axes.exampleAxes.lock_motors 131072).perform (.step 3 2)).previous_dir = 2 ∧
    ((Axes.exampleAxes.lock_motors 131072).perform (.set_homing_mode 3 true)).previous_dir
      = 255 :=
  have h := state_frame (Axes.exampleAxes.lock_motors 131072)
  ⟨(h.1 3 2).trans (by decide), by decide,
    (h.2.2 (.set_homing_mode 3 true) (fun _ _ hne => by cases hne)).trans (by decide)⟩

/-- C16. After `afterParse` every slot of the table is present: a slot that
was present is left as it was, a slot `i` that was null holds the default axis
constructed for index `i`; a freshly constructed manager has every slot null;
`afterParse` is idempotent. -/
theorem afterParse_fills_table (s : Axes) :
    (∀ i : Fin MAX_N_AXIS, (s.afterParse._axis i).isSome = true) ∧
    (∀ (i : Fin MAX_N_AXIS) (a : Axis), s._axis i = some a → s.afterParse._axis i = some a) ∧
    (∀ i : Fin MAX_N_AXIS, s._axis i = none → s.afterParse._axis i = some (Axis.new i.val)) ∧
    (∀ (numberAxis : Nat) (pin : Pin) (mask : Nat) (i : Fin MAX_N_AXIS),
      (Axes.new numberAxis pin mask)._axis i = none) ∧
    s.afterParse.afterParse = s.afterParse := by
  refine ⟨fun i => ?_, fun i a ha => ?_, fun i hi => ?_, fun _ _ _ _ => rfl, ?_⟩
  · simp only [Axes.afterParse]
    cases s._axis i <;> rfl
  · simp only [Axes.afterParse, ha]
  · simp only [Axes.afterParse, hi]
  · simp only [Axes.afterParse]
    congr 1
    funext i
    cases s._axis i <;> rfl

/-- Witness for C16: the machine with Y unconfigured; after `afterParse` slot
Y holds the default axis of index 1 and slot X is as before. -/
theorem afterParse_fills_table_witness :
    Axes.sparseAxes.afterParse._axis ⟨1, by decide⟩ = some (Axis.new 1) ∧
    Axes.sparseAxes.afterParse._axis ⟨0, by decide⟩ = some Axes.exampleX ∧
    Axes.sparseAxes.afterParse.afterParse = Axes.sparseAxes.afterParse :=
  have h := afterParse_fills_table Axes.sparseAxes
  ⟨h.2.2.1 ⟨1, by decide⟩ (by rfl), h.2.1 ⟨0, by decide⟩ Axes.exampleX (by rfl),
    h.2.2.2.2⟩

/-- C17. For every prior lockout mask and every table with
`_numberAxis` within the table: `init` leaves the lockout mask empty (whether
or not the shared disable line is configured) and returns; its calls are the
"Axis count" message, then `setAttr(Output)` and `report` on the shared
disable line exactly when that line is defined, then `init` on each present
axis below `_numberAxis`, once each in increasing index order, absent axes
being skipped. -/
theorem init_sequence (s : Axes) (hn : s._numberAxis ≤ MAX_N_AXIS) :
    s.init.1._motorLockoutMask = 0 ∧
    s.init.2.result = .ok () ∧
    s.init.2.trace = [Event.log_info (LogMessage.axisCount s._numberAxis)] ++
      (if s._sharedStepperDisable.defined then [Event.pin_setAttr_Output, Event.pin_report]
       else []) ++
      ((List.range s._numberAxis).filter (fun i => s.axisPresent i)).map Event.axis_init ∧
    (Event.pin_setAttr_Output ∈ s.init.2.trace ↔ s._sharedStepperDisable.defined = true) := by
  rw [Axes.init_eq s hn]
  refine ⟨rfl, rfl, rfl, ?_⟩
  cases hd : s._sharedStepperDisable.defined <;> simp

/-- Witness for C17: the machine with Y unconfigured and motors 0 and 17
locked out. -/
theorem init_sequence_witness :
    (Axes.sparseAxes.lock_motors 131073)._numberAxis ≤ MAX_N_AXIS ∧
    (Axes.sparseAxes.lock_motors 131073).init.1._motorLockoutMask = 0 ∧
    (Axes.sparseAxes.lock_motors 131073).init.2.trace =
      [Event.log_info (LogMessage.axisCount 3), Event.pin_setAttr_Output, Event.pin_report,
       Event.axis_init 0, Event.axis_init 2] :=
  have h := init_sequence (Axes.sparseAxes.lock_motors 131073) (by decide)
  ⟨by decide, h.1, h.2.2.1.trans (by decide)⟩



namespace Axes

/-! ## Order of the calls of `step` -/

theorem directionCalls_isSetDirection (dir_mask i : Nat) :
    ∀ e ∈ directionCalls dir_mask i, e.isSetDirection = true := by
  intro e he
  simp only [directionCalls, List.mem_cons, List.mem_singleton, List.not_mem_nil, or_false] at he
  rcases he with rfl | rfl <;> rfl

theorem pulseCalls_isStepEdge (s : Axes) (step_mask i : Nat) :
    ∀ e ∈ pulseCalls s step_mask i, e.isStepEdge = true := by
  intro e he
  unfold pulseCalls at he
  split at he
  · rcases List.mem_append.1 he with h | h <;> split at h <;> simp at h <;> subst h <;> rfl
  · cases he

theorem mem_directionCalls (dir_mask axis gang i : Nat) (dir : Bool) :
    Event.motor axis gang (.set_direction dir) ∈ directionCalls dir_mask i ↔
      (i = axis ∧ gang < Axis.MAX_NUMBER_GANGED ∧ dir = dir_mask.testBit i) := by
  simp only [directionCalls, List.mem_cons, List.mem_singleton, List.not_mem_nil, or_false,
    Event.motor.injEq, MotorCall.set_direction.injEq, Axis.MAX_NUMBER_GANGED]
  constructor
  · rintro (⟨rfl, rfl, rfl⟩ | ⟨rfl, rfl, rfl⟩) <;> simp
  · rintro ⟨rfl, hg, rfl⟩
    have : gang = 0 ∨ gang = 1 := by omega
    rcases this with rfl | rfl <;> simp

theorem mem_stepTrace_set_direction (s : Axes) (step_mask dir_mask axis gang : Nat)
    (dir : Bool) :
    Event.motor axis gang (.set_direction dir) ∈ stepTrace s step_mask dir_mask ↔
      (dir_mask % 256 ≠ s.previous_dir ∧ axis < s._numberAxis ∧
        gang < Axis.MAX_NUMBER_GANGED ∧ dir = (dir_mask % 256).testBit axis) := by
  unfold stepTrace
  constructor
  · intro h
    rcases List.mem_append.1 h with h | h
    · rcases List.mem_append.1 h with h | h
      · split at h
        · cases h
        · rename_i hne
          rcases List.mem_append.1 h with h | h
          · obtain ⟨i, hi, hm⟩ := List.mem_flatMap.1 h
            obtain ⟨rfl, hg, hd⟩ := (mem_directionCalls _ _ _ _ _).1 hm
            exact ⟨hne, List.mem_range.1 hi, hg, hd⟩
          · simp at h
      · simp at h
    · obtain ⟨i, _, hm⟩ := List.mem_flatMap.1 h
      have := pulseCalls_isStepEdge s _ i _ hm
      cases this
  · rintro ⟨hne, hax, hg, hd⟩
    apply List.mem_append_left
    apply List.mem_append_left
    rw [if_neg hne]
    apply List.mem_append_left
    exact List.mem_flatMap.2 ⟨axis, List.mem_range.2 hax,
      (mem_directionCalls _ _ _ _ _).2 ⟨rfl, hg, hd⟩⟩

theorem count_stepTrace_set_direction (s : Axes) (step_mask dir_mask axis gang : Nat)
    (dir : Bool) :
    (stepTrace s step_mask dir_mask).count (Event.motor axis gang (.set_direction dir)) ≤ 1 := by
  unfold stepTrace
  have hp : ((List.range s._numberAxis).flatMap (pulseCalls s (step_mask % 256))).count
      (Event.motor axis gang (.set_direction dir)) = 0 := by
    apply List.count_eq_zero_of_not_mem
    intro h
    obtain ⟨i, _, hm⟩ := List.mem_flatMap.1 h
    have := pulseCalls_isStepEdge s _ i _ hm
    cases this
  have hc : (directionCalls (dir_mask % 256) axis).count
      (Event.motor axis gang (.set_direction dir)) ≤ 1 := by
    apply List.nodup_iff_count_le_one.1
    simp [directionCalls]
  rw [List.count_append, List.count_append, hp]
  split
  · simp
  · rw [List.count_append, count_flatMap_range (directionCalls (dir_mask % 256)) _ axis
      (fun i hi hm => hi ((mem_directionCalls _ _ _ _ _).1 hm).1)]
    split
    · simp; omega
    · simp

theorem count_waitDirection_stepTrace (s : Axes) (step_mask dir_mask : Nat) :
    (stepTrace s step_mask dir_mask).count Event.waitDirection =
      if dir_mask % 256 = s.previous_dir then 0 else 1 := by
  unfold stepTrace
  have hp : ((List.range s._numberAxis).flatMap (pulseCalls s (step_mask % 256))).count
      Event.waitDirection = 0 := by
    apply List.count_eq_zero_of_not_mem
    intro h
    obtain ⟨i, _, hm⟩ := List.mem_flatMap.1 h
    have := pulseCalls_isStepEdge s _ i _ hm
    cases this
  have hd : ((List.range s._numberAxis).flatMap (directionCalls (dir_mask % 256))).count
      Event.waitDirection = 0 := by
    apply List.count_eq_zero_of_not_mem
    intro h
    obtain ⟨i, _, hm⟩ := List.mem_flatMap.1 h
    have := directionCalls_isSetDirection _ i _ hm
    cases this
  rw [List.count_append, List.count_append, hp]
  split
  · simp
  · rw [List.count_append, hd]; simp

end Axes

/-- C13, as stated, fails: the machine without axes is fully populated and its
cached direction 255 differs from `dir_mask = 0`, yet `step` issues no
`set_direction` call. -/
theorem step_direction_cache_counterexample :
    Axes.emptyAxes.FullyPopulated ∧
    ¬ ((Axes.emptyAxes.step 0 0).2.trace.any Event.isSetDirection = true ↔
        0 ≠ Axes.emptyAxes.previous_dir) := by
  decide

/-- C13, amended. On a fully populated table, for every cached direction,
step mask and direction mask `d` (a `uint8_t`, so `d % 256`): `step` returns;
it issues `set_direction` calls exactly when `d` differs from the cached
direction and there is at least one axis; the call `set_direction(dir)`
reaches the motor of slot `(axis, gang)` exactly when `d` differs from the
cache, `axis < _numberAxis`, `gang < 2` and `dir` is bit `axis` of `d`, and it
does so at most once, so both gangs of an axis receive the same direction,
flagged in `step_mask` or not; the cached direction is `d` afterwards. -/
theorem step_direction_cache (s : Axes) (step_mask d : Nat) (h : s.FullyPopulated) :
    (s.step step_mask d).2.result = .ok () ∧
    ((s.step step_mask d).2.trace.any Event.isSetDirection = true ↔
      (d % 256 ≠ s.previous_dir ∧ 0 < s._numberAxis)) ∧
    (∀ axis gang dir,
      (Event.motor axis gang (.set_direction dir) ∈ (s.step step_mask d).2.trace ↔
        (d % 256 ≠ s.previous_dir ∧ axis < s._numberAxis ∧ gang < Axis.MAX_NUMBER_GANGED ∧
          dir = d.testBit axis)) ∧
      (s.step step_mask d).2.trace.count (Event.motor axis gang (.set_direction dir)) ≤ 1) ∧
    (s.step step_mask d).1.previous_dir = d % 256 := by
  rw [Axes.step_eq s step_mask d h, Axes.step_state]
  refine ⟨rfl, Axes.any_isSetDirection_stepTrace s step_mask d, ?_, rfl⟩
  intro axis gang dir
  refine ⟨?_, Axes.count_stepTrace_set_direction s step_mask d axis gang dir⟩
  rw [Axes.mem_stepTrace_set_direction]
  constructor
  · rintro ⟨hne, hax, hg, hd⟩
    have := Axes.fullyPopulated_lt s h axis hax
    rw [testBit_mod_256 _ _ (by omega)] at hd
    exact ⟨hne, hax, hg, hd⟩
  · rintro ⟨hne, hax, hg, hd⟩
    have := Axes.fullyPopulated_lt s h axis hax
    rw [← testBit_mod_256 _ _ (by omega)] at hd
    exact ⟨hne, hax, hg, hd⟩

/-- Witness for amended C13: the example machine, stepping X only with
`dir_mask = 2`; Y, which is not flagged, receives direction `true` on both
gangs. -/
theorem step_direction_cache_witness :
    Axes.exampleAxes.FullyPopulated ∧
    Event.motor 1 0 (.set_direction true) ∈ (Axes.exampleAxes.step 1 2).2.trace ∧
    Event.motor 1 1 (.set_direction true) ∈ (Axes.exampleAxes.step 1 2).2.trace ∧
    (Axes.exampleAxes.step 1 2).1.previous_dir = 2 :=
  have h := step_direction_cache Axes.exampleAxes 1 2 (by decide)
  ⟨by decide, ((h.2.2.1 1 0 true).1).2 (by decide), ((h.2.2.1 1 1 true).1).2 (by decide),
    h.2.2.2⟩

namespace Axes

/-! ## First `step` after start-up on a table whose gangs are present -/

theorem gangPresent_elim (s : Axes) (axis gang : Nat) (h : s.gangPresent axis gang = true) :
    ∃ a g, s.axisAt axis = .ok (some a) ∧ a.gangAt gang = .ok (some g) := by
  unfold gangPresent at h
  split at h
  · rename_i a ha
    split at h
    · rename_i g hg; exact ⟨a, g, ha, hg⟩
    · cases h
  · cases h

theorem gangPresent_lt (s : Axes) (axis gang : Nat) (h : s.gangPresent axis gang = true) :
    axis < 6 := by
  obtain ⟨a, _, ha, _⟩ := gangPresent_elim s axis gang h
  exact axisAt_lt s axis _ ha

theorem step_directions_axis_gangs (s : Axes) (dir_mask axis : Nat)
    (h0 : s.gangPresent axis 0 = true) (h1 : s.gangPresent axis 1 = true) (u : Unit) :
    (forLoop (List.range Axis.MAX_NUMBER_GANGED) u fun gang_index _ => do
      let a ← Outcome.lift (s.motorAt axis gang_index)
      if a.isSome then
        Outcome.emit (.motor axis gang_index (.set_direction (bitnum_is_true dir_mask axis))))
      = ⟨directionWrites s dir_mask axis, .ok ()⟩ := by
  obtain ⟨a, g0, ha, hg0⟩ := gangPresent_elim s axis 0 h0
  obtain ⟨a1, g1, ha1, hg1⟩ := gangPresent_elim s axis 1 h1
  rw [ha] at ha1
  cases ha1
  cases hm0 : g0._motor <;> cases hm1 : g1._motor <;>
    simp [range_gangs, forLoop, motorAt, motorOf, ha, hg0, hg1, hm0, hm1, deref,
      directionWrites, motorPresent, Axis.motorIn, bitnum_is_true_eq, bind, Except.bind, pure,
      Except.pure]

theorem step_set_directions_gangs (s : Axes) (dir_mask : Nat) (h : s.GangsPresent) :
    step_set_directions s dir_mask =
      ⟨(List.range s._numberAxis).flatMap (directionWrites s dir_mask) ++ [.waitDirection],
        .ok ()⟩ := by
  have := forLoop_ok (σ := Unit) _ (directionWrites s dir_mask) (fun _ u => u)
    (List.range s._numberAxis) ()
    (fun i hi u => step_directions_axis_gangs s dir_mask i (h i (List.mem_range.1 hi)).1
      (h i (List.mem_range.1 hi)).2 u)
  unfold step_set_directions
  exact (congrArg (fun o => Outcome.bind o (fun _ => Outcome.emit .waitDirection)) this).trans
    (by simp)

theorem step_pulses_edges (s : Axes) (step_mask : Nat) :
    ∀ e ∈ (step_pulses s step_mask).trace, e.isStepEdge = true := by
  unfold step_pulses
  apply forLoop_trace_forall
  intro i _ _ e he
  split at he
  · revert e
    apply Outcome.bind_trace_forall
    · intro e he; simp at he
    · intro a
      have hm : ∀ g, ∀ e ∈ (step_motor a i g).trace, e.isStepEdge = true := by
        intro g e he
        rw [step_motor_trace a i g e he]
        rfl
      have hjp : ∀ (y : PUnit), ∀ e ∈ (if bitnum_is_false s._motorLockoutMask (i + 16) = true
          then step_motor a i 1 else pure PUnit.unit).trace, e.isStepEdge = true := by
        intro _ e he
        split at he
        · exact hm 1 e he
        · simp at he
      dsimp only
      split
      · apply Outcome.bind_trace_forall _ _ _ (hm 0) hjp
      · apply Outcome.bind_trace_forall _ _ _ _ hjp
        intro e he; simp at he
  · simp at he

theorem step_trace_changed (s : Axes) (step_mask dir_mask : Nat) (h : s.GangsPresent)
    (hne : dir_mask % 256 ≠ s.previous_dir) :
    (s.step step_mask dir_mask).2.trace =
      (List.range s._numberAxis).flatMap (directionWrites s (dir_mask % 256)) ++
        [Event.waitDirection, Event.startPulseTimer] ++
        (step_pulses s (step_mask % 256)).trace := by
  unfold step
  simp [hne, step_set_directions_gangs s _ h]

theorem step_trace_unchanged (s : Axes) (step_mask dir_mask : Nat)
    (heq : dir_mask % 256 = s.previous_dir) :
    (s.step step_mask dir_mask).2.trace =
      [Event.startPulseTimer] ++ (step_pulses s (step_mask % 256)).trace := by
  unfold step
  simp [heq]

theorem mem_directionWrites (s : Axes) (dir_mask axis gang i : Nat) (dir : Bool) :
    Event.motor axis gang (.set_direction dir) ∈ directionWrites s dir_mask i ↔
      (i = axis ∧ gang < Axis.MAX_NUMBER_GANGED ∧ s.motorPresent axis gang = true ∧
        dir = dir_mask.testBit i) := by
  unfold directionWrites
  simp only [Axis.MAX_NUMBER_GANGED]
  constructor
  · intro h
    rcases List.mem_append.1 h with h | h <;> split at h <;> simp at h
    · rename_i hp
      obtain ⟨rfl, rfl, rfl⟩ := h
      exact ⟨rfl, by omega, hp, rfl⟩
    · rename_i hp
      obtain ⟨rfl, rfl, rfl⟩ := h
      exact ⟨rfl, by omega, hp, rfl⟩
  · rintro ⟨rfl, hg, hp, rfl⟩
    have : gang = 0 ∨ gang = 1 := by omega
    rcases this with rfl | rfl <;> simp [hp]

theorem directionWrites_isSetDirection (s : Axes) (dir_mask i : Nat) :
    ∀ e ∈ directionWrites s dir_mask i, e.isSetDirection = true := by
  intro e he
  unfold directionWrites at he
  rcases List.mem_append.1 he with h | h <;> split at h <;> simp at h <;> subst h <;> rfl

theorem directionWrites_nodup (s : Axes) (dir_mask i : Nat) :
    (directionWrites s dir_mask i).Nodup := by
  unfold directionWrites
  cases s.motorPresent i 0 <;> cases s.motorPresent i 1 <;> simp

end Axes

/-- C18, as stated, fails: on the first `step` of the machine without axes a
`dir_mask` of 1 differs from 255, yet no direction pin is written. -/
theorem first_step_direction_writes_counterexample :
    Axes.emptyAxes.previous_dir = Axes.INITIAL_PREVIOUS_DIR ∧
    ¬ ((Axes.emptyAxes.step 0 1).2.trace.any Event.isSetDirection = true ↔ 1 ≠ 255) := by
  decide

/-- C18, amended. On the first `step` after start-up (direction cache 255), on
a table whose axes and gang slots below `_numberAxis` are present: direction
pins are written exactly when `dir_mask` differs from 255 and some slot below
`_numberAxis` holds a motor; and when `dir_mask` differs from 255 the calls of
`step` are the direction writes, then the direction-setup wait and the
pulse-start signal, then only step edges, where the direction writes are
`set_direction` calls only and contain, exactly once, the write of bit `axis`
of `dir_mask` to every present motor `(axis, gang)` below `_numberAxis`. -/
theorem first_step_direction_writes (s : Axes) (step_mask d : Nat)
    (hfresh : s.previous_dir = Axes.INITIAL_PREVIOUS_DIR) (hg : s.GangsPresent) :
    ((s.step step_mask d).2.trace.any Event.isSetDirection = true ↔
      (d % 256 ≠ 255 ∧ ∃ axis gang, axis < s._numberAxis ∧ gang < Axis.MAX_NUMBER_GANGED ∧
        s.motorPresent axis gang = true)) ∧
    (d % 256 ≠ 255 →
      ∃ writes rest,
        (s.step step_mask d).2.trace =
          writes ++ [Event.waitDirection, Event.startPulseTimer] ++ rest ∧
        (∀ e ∈ writes, e.isSetDirection = true) ∧
        (∀ e ∈ rest, e.isStepEdge = true) ∧
        (∀ axis gang, axis < s._numberAxis → gang < Axis.MAX_NUMBER_GANGED →
          s.motorPresent axis gang = true →
          writes.count (Event.motor axis gang (.set_direction (d.testBit axis))) = 1)) := by
  have hwrites : ∀ e ∈ (List.range s._numberAxis).flatMap (Axes.directionWrites s (d % 256)),
      e.isSetDirection = true := by
    intro e he
    obtain ⟨i, _, hm⟩ := List.mem_flatMap.1 he
    exact Axes.directionWrites_isSetDirection s _ i e hm
  have hedges := Axes.step_pulses_edges s (step_mask % 256)
  have hnot : ∀ e ∈ (Axes.step_pulses s (step_mask % 256)).trace, e.isSetDirection = false := by
    intro e he
    have := hedges e he
    cases e with
    | motor axis gang call => cases call <;> first | rfl | cases this
    | _ => rfl
  constructor
  · constructor
    · intro hany
      obtain ⟨e, he, hp⟩ := List.any_eq_true.1 hany
      by_cases hd : d % 256 = s.previous_dir
      · rw [Axes.step_trace_unchanged s step_mask d hd] at he
        rcases List.mem_append.1 he with he | he
        · simp at he; subst he; cases hp
        · rw [hnot e he] at hp; cases hp
      · rw [Axes.step_trace_changed s step_mask d hg hd] at he
        refine ⟨by rw [hfresh] at hd; exact hd, ?_⟩
        rcases List.mem_append.1 he with he | he
        · rcases List.mem_append.1 he with he | he
          · obtain ⟨i, hi, hm⟩ := List.mem_flatMap.1 he
            cases e with
            | motor axis gang call =>
              cases call with
              | set_direction dir =>
                obtain ⟨rfl, hgang, hpres, _⟩ := (Axes.mem_directionWrites s _ _ _ _ _).1 hm
                exact ⟨i, gang, List.mem_range.1 hi, hgang, hpres⟩
              | _ => cases hp
            | _ => cases hp
          · simp at he
            rcases he with rfl | rfl <;> cases hp
        · rw [hnot e he] at hp; cases hp
    · rintro ⟨hd, axis, gang, hax, hgang, hpres⟩
      have hne : d % 256 ≠ s.previous_dir := by rw [hfresh]; exact hd
      rw [Axes.step_trace_changed s step_mask d hg hne]
      apply List.any_eq_true.2
      refine ⟨Event.motor axis gang (.set_direction ((d % 256).testBit axis)), ?_, rfl⟩
      apply List.mem_append_left
      apply List.mem_append_left
      exact List.mem_flatMap.2 ⟨axis, List.mem_range.2 hax,
        (Axes.mem_directionWrites s _ _ _ _ _).2 ⟨rfl, hgang, hpres, rfl⟩⟩
  · intro hd
    have hne : d % 256 ≠ s.previous_dir := by rw [hfresh]; exact hd
    refine ⟨_, _, Axes.step_trace_changed s step_mask d hg hne, hwrites, hedges, ?_⟩
    intro axis gang hax hgang hpres
    have hlt := Axes.gangPresent_lt s axis 0 (hg axis hax).1
    rw [← testBit_mod_256 d axis (by omega),
      count_flatMap_range (Axes.directionWrites s (d % 256)) _ axis
        (fun i hi hm => hi ((Axes.mem_directionWrites s _ _ _ _ _).1 hm).1)]
    simp only [hax, if_true]
    apply Nat.le_antisymm
    · exact List.nodup_iff_count_le_one.1 (Axes.directionWrites_nodup s _ axis) _
    · exact List.count_pos_iff.2
        ((Axes.mem_directionWrites s _ _ _ _ _).2 ⟨rfl, hgang, hpres, rfl⟩)

/-- Witness for amended C18: a freshly started machine whose axis X has a
motor in gang 0 only; the first step with `dir_mask = 2` writes the direction
of the three present motors before the step edges. -/
theorem first_step_direction_writes_witness :
    Axes.oneMotorAxes.previous_dir = Axes.INITIAL_PREVIOUS_DIR ∧
    Axes.oneMotorAxes.GangsPresent ∧
    (Axes.oneMotorAxes.step 2 2).2.trace =
      [Event.motor 0 0 (.set_direction false), Event.motor 1 0 (.set_direction true),
       Event.motor 1 1 (.set_direction true), Event.waitDirection, Event.startPulseTimer,
       Event.motor 1 0 .step, Event.motor 1 1 .step] ∧
    (Axes.oneMotorAxes.step 2 2).2.trace.any Event.isSetDirection = true :=
  have h := first_step_direction_writes Axes.oneMotorAxes 2 2 rfl (by decide)
  ⟨rfl, by decide, by decide, h.1.2 ⟨by decide, 0, 0, by decide, by decide, by decide⟩⟩



/-! ## Reverse lookups -/

theorem firstFound_cons_none (i : Nat) (rest : List Nat)
    (body : Nat → Except Fault (Option Nat)) (h : body i = .ok none) :
    firstFound (i :: rest) body = firstFound rest body := by
  simp [firstFound, h, bind, Except.bind]

theorem firstFound_cons_some (i r : Nat) (rest : List Nat)
    (body : Nat → Except Fault (Option Nat)) (h : body i = .ok (some r)) :
    firstFound (i :: rest) body = .ok (some r) := by
  simp [firstFound, h, bind, Except.bind, pure, Except.pure]

theorem firstFound_cons_error (i : Nat) (f : Fault) (rest : List Nat)
    (body : Nat → Except Fault (Option Nat)) (h : body i = .error f) :
    firstFound (i :: rest) body = .error f := by
  simp [firstFound, h, bind, Except.bind]

theorem firstFound_append_none (body : Nat → Except Fault (Option Nat)) (l2 : List Nat) :
    ∀ l1 : List Nat, (∀ k ∈ l1, body k = .ok none) →
      firstFound (l1 ++ l2) body = firstFound l2 body
  | [], _ => rfl
  | i :: rest, h => by
    rw [List.cons_append, firstFound_cons_none i _ body (h i (List.mem_cons_self _ _))]
    exact firstFound_append_none body l2 rest (fun k hk => h k (List.mem_cons_of_mem _ hk))

theorem firstFound_range_none (body : Nat → Except Fault (Option Nat)) (n : Nat)
    (h : ∀ k, k < n → body k = .ok none) : firstFound (List.range n) body = .ok none := by
  have := firstFound_append_none body [] (List.range n) (fun k hk => h k (List.mem_range.1 hk))
  simpa [firstFound] using this

theorem firstFound_range_at (body : Nat → Except Fault (Option Nat)) (n i : Nat) (hi : i < n)
    (hpre : ∀ k, k < i → body k = .ok none) :
    firstFound (List.range n) body =
      match body i with
      | .ok none => firstFound ((List.range (n - i - 1)).map (fun k => i + 1 + k)) body
      | .ok (some r) => .ok (some r)
      | .error f => .error f := by
  have hn : n = i + (1 + (n - i - 1)) := by omega
  have hr : List.range n = List.range i ++ (i :: (List.range (n - i - 1)).map (fun k => i + 1 + k)) := by
    conv_lhs => rw [hn]
    rw [List.range_add, List.range_add, show List.range 1 = [0] from rfl]
    simp [Nat.add_assoc]
  rw [hr, firstFound_append_none body _ (List.range i) (fun k hk => hpre k (List.mem_range.1 hk))]
  cases hb : body i with
  | error f => exact firstFound_cons_error i f _ body hb
  | ok r =>
    cases r with
    | none => exact firstFound_cons_none i _ body hb
    | some r => exact firstFound_cons_some i r _ body hb

namespace Axes

theorem hasMotor_eq (s : Axes) (i m : Nat) (a : Axis) (ha : s.axisAt i = .ok (some a)) :
    a.hasMotor m = (s.holdsMotor i 0 m || s.holdsMotor i 1 m) := by
  simp [Axis.hasMotor, holdsMotor, ha, range_gangs]

theorem axisAt_eq (s : Axes) (i : Nat) (hi : i < MAX_N_AXIS) :
    s.axisAt i = .ok (s._axis ⟨i, hi⟩) := by
  simp [axisAt, hi]

theorem holdsMotor_lt (s : Axes) (i j m : Nat) (h : s.holdsMotor i j m = true) :
    i < MAX_N_AXIS := by
  unfold holdsMotor at h
  split at h
  · rename_i a ha; exact axisAt_lt s i _ ha
  · cases h

theorem holdsMotor_elim (s : Axes) (i j m : Nat) (h : s.holdsMotor i j m = true) :
    ∃ a g motor, s.axisAt i = .ok (some a) ∧ a.gangAt j = .ok (some g) ∧
      g._motor = some motor ∧ (motor.id == m) = true := by
  unfold holdsMotor at h
  split at h
  · rename_i a ha
    unfold Axis.motorIn at h
    split at h
    · rename_i motor hm
      split at hm
      · rename_i g hg; exact ⟨a, g, motor, ha, hg, hm, h⟩
      · cases hm
    · cases h
  · cases h

theorem findAxisIndex_body_none (s : Axes) (m i : Nat) (hi : i < MAX_N_AXIS)
    (h0 : s.holdsMotor i 0 m = false) (h1 : s.holdsMotor i 1 m = false) :
    (firstFound (List.range Axis.MAX_NUMBER_GANGED) fun _j => do
      match ← s.axisAt i with
      | some a => if a.hasMotor m then pure (some i) else pure none
      | none => pure none) = .ok none := by
  have ha := axisAt_eq s i hi
  cases hs : s._axis ⟨i, hi⟩ with
  | none => simp [range_gangs, firstFound, ha, hs, bind, Except.bind, pure, Except.pure]
  | some a =>
    have hm : a.hasMotor m = false := by
      rw [hasMotor_eq s i m a (by rw [ha, hs]), h0, h1]; rfl
    simp [range_gangs, firstFound, ha, hs, hm, bind, Except.bind, pure, Except.pure]

theorem findAxisIndex_body_some (s : Axes) (m i j : Nat) (hj : j < Axis.MAX_NUMBER_GANGED)
    (h : s.holdsMotor i j m = true) :
    (firstFound (List.range Axis.MAX_NUMBER_GANGED) fun _j => do
      match ← s.axisAt i with
      | some a => if a.hasMotor m then pure (some i) else pure none
      | none => pure none) = .ok (some i) := by
  obtain ⟨a, _, _, ha, _⟩ := holdsMotor_elim s i j m h
  have hm : a.hasMotor m = true := by
    rw [hasMotor_eq s i m a ha]
    have : j = 0 ∨ j = 1 := by simp only [Axis.MAX_NUMBER_GANGED] at hj; omega
    rcases this with rfl | rfl <;> simp [h]
  simp [range_gangs, firstFound, ha, hm, bind, Except.bind, pure, Except.pure]

theorem findAxisGanged_body_none (s : Axes) (m i : Nat) (hi : i < MAX_N_AXIS)
    (h0 : s.holdsMotor i 0 m = false) (h1 : s.holdsMotor i 1 m = false) :
    (do
      match ← s.axisAt i with
      | some a =>
          if a.hasMotor m then
            firstFound (List.range Axis.MAX_NUMBER_GANGED) fun j => do
              let g ← deref (← a.gangAt j)
              match g._motor with
              | some motor => if motor.id == m then pure (some j) else pure none
              | none => pure none
          else pure none
      | none => pure none : Except Fault (Option Nat)) = .ok none := by
  have ha := axisAt_eq s i hi
  cases hs : s._axis ⟨i, hi⟩ with
  | none => simp [ha, hs, bind, Except.bind, pure, Except.pure]
  | some a =>
    have hm : a.hasMotor m = false := by
      rw [hasMotor_eq s i m a (by rw [ha, hs]), h0, h1]; rfl
    simp [ha, hs, hm, bind, Except.bind, pure, Except.pure]

theorem findAxisGanged_body_some (s : Axes) (m i j : Nat) (hj : j < Axis.MAX_NUMBER_GANGED)
    (h : s.holdsMotor i j m = true)
    (hother : ∀ j2, j2 < j → s.holdsMotor i j2 m = false)
    (hgang : ∀ j2, j2 < j → s.gangPresent i j2 = true) :
    (do
      match ← s.axisAt i with
      | some a =>
          if a.hasMotor m then
            firstFound (List.range Axis.MAX_NUMBER_GANGED) fun j => do
              let g ← deref (← a.gangAt j)
              match g._motor with
              | some motor => if motor.id == m then pure (some j) else pure none
              | none => pure none
          else pure none
      | none => pure none : Except Fault (Option Nat)) = .ok (some j) := by
  obtain ⟨a, g, motor, ha, hg, hmot, hid⟩ := holdsMotor_elim s i j m h
  have hj2 : j = 0 ∨ j = 1 := by simp only [Axis.MAX_NUMBER_GANGED] at hj; omega
  have hm : a.hasMotor m = true := by
    rw [hasMotor_eq s i m a ha]
    rcases hj2 with rfl | rfl <;> simp [h]
  rcases hj2 with rfl | rfl
  · simp [range_gangs, firstFound, ha, hm, hg, hmot, hid, deref, bind, Except.bind, pure,
      Except.pure]
  · obtain ⟨a0, g0, ha0, hg0⟩ := gangPresent_elim s i 0 (hgang 0 (by omega))
    rw [ha] at ha0
    cases ha0
    have h0 := hother 0 (by omega)
    simp only [holdsMotor, ha, Axis.motorIn, hg0] at h0
    cases hm0 : g0._motor with
    | none =>
      simp [range_gangs, firstFound, ha, hm, hg, hg0, hm0, hmot, hid, deref, bind,
        Except.bind, pure, Except.pure]
    | some motor0 =>
      rw [hm0] at h0
      simp only at h0
      simp [range_gangs, firstFound, ha, hm, hg, hg0, hm0, h0, hmot, hid, deref, bind,
        Except.bind, pure, Except.pure]

end Axes

/-- C11, as stated, fails: motor 7 occupies slot `(0, 1)` and no other slot of
a table whose axis 0 has a null gang 0; `findAxisIndex(7)` returns 0 but
`findAxisGanged(7)` follows the null gang pointer instead of returning 1. -/
theorem find_axis_lookup_counterexample :
    Axes.nullGangAxes.holdsMotor 0 1 7 = true ∧
    Axes.nullGangAxes.holdsMotor 0 0 7 = false ∧
    Axes.nullGangAxes.findAxisIndex 7 = .ok 0 ∧
    Axes.nullGangAxes.findAxisGanged 7 = .error Fault.nullDereference ∧
    Axes.nullGangAxes.findAxisGanged 7 ≠ .ok 1 := by
  refine ⟨by decide, by decide, rfl, rfl, ?_⟩
  intro h
  cases h

/-- C11, amended. With `hasMotor(m)` meaning that a gang slot of the axis
holds `m`: if `m` occupies slot `(i, j)` with `i < _numberAxis` and no other
slot below `_numberAxis`, then `findAxisIndex(m)` returns `i`, and
`findAxisGanged(m)` returns `j` provided the gang slots of axis `i` below `j`
are present (non-null); if `_numberAxis` is within the table and `m` occupies
no slot below `_numberAxis`, both lookups end in the failed assertion. -/
theorem find_axis_lookup (s : Axes) (m : Nat) :
    (∀ i j, i < s._numberAxis → j < Axis.MAX_NUMBER_GANGED → s.holdsMotor i j m = true →
      (∀ i2, i2 < s._numberAxis → ∀ j2, j2 < Axis.MAX_NUMBER_GANGED → (i2, j2) ≠ (i, j) →
        s.holdsMotor i2 j2 m = false) →
      s.findAxisIndex m = .ok i ∧
      ((∀ j2, j2 < j → s.gangPresent i j2 = true) → s.findAxisGanged m = .ok j)) ∧
    (s._numberAxis ≤ MAX_N_AXIS →
      (∀ i, i < s._numberAxis → ∀ j, j < Axis.MAX_NUMBER_GANGED → s.holdsMotor i j m = false) →
      s.findAxisIndex m =
        .error (Fault.assertion "Cannot find axis for motor. Something wonky is going on here...") ∧
      s.findAxisGanged m =
        .error (Fault.assertion "Cannot find axis for motor. Something wonky is going on here...")) := by
  constructor
  · intro i j hi hj hold hother
    have hi6 := Axes.holdsMotor_lt s i j m hold
    have hpre : ∀ k, k < i → s.holdsMotor k 0 m = false ∧ s.holdsMotor k 1 m = false := by
      intro k hk
      have hkn : k < s._numberAxis := by omega
      constructor
      · exact hother k hkn 0 (by simp [Axis.MAX_NUMBER_GANGED]) (by
          intro h; cases h; omega)
      · exact hother k hkn 1 (by simp [Axis.MAX_NUMBER_GANGED]) (by
          intro h; cases h; omega)
    constructor
    · unfold Axes.findAxisIndex
      rw [firstFound_range_at _ s._numberAxis i hi
        (fun k hk => Axes.findAxisIndex_body_none s m k (by omega) (hpre k hk).1 (hpre k hk).2),
        Axes.findAxisIndex_body_some s m i j hj hold]
      rfl
    · intro hgang
      unfold Axes.findAxisGanged
      rw [firstFound_range_at _ s._numberAxis i hi
        (fun k hk => Axes.findAxisGanged_body_none s m k (by omega) (hpre k hk).1 (hpre k hk).2),
        Axes.findAxisGanged_body_some s m i j hj hold
          (fun j2 hj2 => hother i hi j2 (by simp only [Axis.MAX_NUMBER_GANGED] at hj ⊢; omega)
            (by intro h; cases h; omega)) hgang]
      rfl
  · intro hn hnone
    constructor
    · unfold Axes.findAxisIndex
      rw [firstFound_range_none _ s._numberAxis
        (fun k hk => Axes.findAxisIndex_body_none s m k (by omega)
          (hnone k hk 0 (by simp [Axis.MAX_NUMBER_GANGED]))
          (hnone k hk 1 (by simp [Axis.MAX_NUMBER_GANGED])))]
      rfl
    · unfold Axes.findAxisGanged
      rw [firstFound_range_none _ s._numberAxis
        (fun k hk => Axes.findAxisGanged_body_none s m k (by omega)
          (hnone k hk 0 (by simp [Axis.MAX_NUMBER_GANGED]))
          (hnone k hk 1 (by simp [Axis.MAX_NUMBER_GANGED])))]
      rfl

/-- Witness for amended C11: on the example machine motor 4 sits in slot
`(1, 1)` only and is found there; motor 9 sits nowhere and both lookups end in
the failed assertion. -/
theorem find_axis_lookup_witness :
    Axes.exampleAxes.holdsMotor 1 1 4 = true ∧
    Axes.exampleAxes.findAxisIndex 4 = .ok 1 ∧
    Axes.exampleAxes.findAxisGanged 4 = .ok 1 ∧
    Axes.exampleAxes.findAxisIndex 9 =
      .error (Fault.assertion "Cannot find axis for motor. Something wonky is going on here...") :=
  have h := find_axis_lookup Axes.exampleAxes 4
  have h4 := h.1 1 1 (by decide) (by decide) (by decide) (by decide)
  ⟨by decide, h4.1, h4.2 (by decide),
    ((find_axis_lookup Axes.exampleAxes 9).2 (by decide) (by decide)).1⟩



namespace Axes

/-! ## Shape of the calls of `step` on an arbitrary table -/

end Axes

end Machine
